import Mathlib

/-!
# Verification of PyRomano

Shallow embedding of `PyRomano.py`: the class `NumRom` (Roman numerals with
uncia-based fractions) and the class `MedRom` (Roman units of measure).

Strings are modelled as `List Char`; Python floats are modelled as exact
rationals `ℚ`; a function that can `raise RomanError` returns
`Except RomanError α`.  Python `str.upper` / `str.lower` are modelled by
mapping `Char.toUpper` / `Char.toLower` over the characters, which agrees with
Python on every character these tables use.
-/

/-- The `RomanError` exception, one constructor per `raise` site, carrying the
data interpolated into the corresponding Python message. -/
inductive RomanError where
  /-- `a_decimal`: "Entrada inválida: debe ser una cadena no vacía." -/
  | invalidInput : RomanError
  /-- `_valida_romano`: "Secuencia inválida encontrada: {seq}" -/
  | invalidSequence : List Char → RomanError
  /-- `_valida_romano`: "Las fracciones deben estar al final del número romano." -/
  | fractionPlacement : RomanError
  /-- `a_decimal`: "Número romano inválido: {roman}" -/
  | invalidNumeral : List Char → RomanError
  /-- `a_romano`: "Número fuera de rango: debe estar entre 0 y 3999.5." -/
  | outOfRange : RomanError
  /-- `a_modernas` / `a_unidad_romana`: "Unidad desconocida: ... Unidades válidas: {list}" -/
  | unknownUnit : List String → RomanError
  /-- `conversion_unidades`: "Unidades inválidas. Unidades válidas: {list}" -/
  | invalidUnits : List String → RomanError
  /-- `a_modernas` / `a_unidad_romana`: "El valor debe ser un número no negativo." -/
  | invalidValue : RomanError
deriving DecidableEq

/-- Python `s.upper()` (character-wise; exact on the ASCII letters and `·`
used by the tables). -/
def pyUpper (s : List Char) : List Char := s.map Char.toUpper

/-- Python `s.lower()` on unit names (character-wise over the string's
characters; exact on the ASCII unit names of the table). -/
def pyLower (s : String) : String := String.mk (s.data.map Char.toLower)

/-- `leadsWith pat s`: `s` begins with `pat` (Python `s.startswith(pat)`). -/
def leadsWith : List Char → List Char → Bool
  | [], _ => true
  | _ :: _, [] => false
  | a :: as, b :: bs => a == b && leadsWith as bs

/-- Python substring containment `needle in hay`. -/
def hasSubstr (needle : List Char) : List Char → Bool
  | [] => needle.isEmpty
  | c :: rest => leadsWith needle (c :: rest) || hasSubstr needle rest

/-- Python `s.endswith(suf)`. -/
def endsWith (s suf : List Char) : Bool :=
  leadsWith suf (s.drop (s.length - suf.length))

namespace NumRom

/-- `NumRom._valores_romanos`: the ordered Roman digit table. -/
def _valores_romanos : List (List Char × Nat) :=
  [(['M'], 1000), (['C', 'M'], 900), (['D'], 500), (['C', 'D'], 400),
   (['C'], 100), (['X', 'C'], 90), (['L'], 50), (['X', 'L'], 40),
   (['X'], 10), (['I', 'X'], 9), (['V'], 5), (['I', 'V'], 4), (['I'], 1)]

/-- `NumRom._valores_fracciones`: the ordered fraction table (uncia = 1/12). -/
def _valores_fracciones : List (List Char × ℚ) :=
  [(['S'], 6/12), (['·'], 1/12), (['·', '·'], 2/12), (['·', '·', '·'], 3/12),
   (['·', '·', '·', '·'], 4/12), (['·', '·', '·', '·', '·'], 5/12)]

/-- The seven `invalid_sequences` of `_valida_romano`. -/
def invalid_sequences : List (List Char) :=
  [['I', 'I', 'I', 'I'], ['V', 'V'], ['X', 'X', 'X', 'X'], ['L', 'L'],
   ['C', 'C', 'C', 'C'], ['D', 'D'], ['M', 'M', 'M', 'M']]

/-- `NumRom._valida_romano`: uppercase, reject the first forbidden substring
found; then, if any fraction glyph occurs as a substring, reject when some
character `S` or `·` sits at an index `i` with `i < len - 6`.
Returns `some e` where Python raises `e`, `none` where it returns normally. -/
def _valida_romano (roman : List Char) : Option RomanError :=
  let r := pyUpper roman
  match invalid_sequences.find? (fun seq => hasSubstr seq r) with
  | some seq => some (.invalidSequence seq)
  | none =>
    if _valores_fracciones.any (fun f => hasSubstr f.1 r) then
      if r.enum.any (fun p => (p.2 == 'S' || p.2 == '·') && p.1 + 6 < r.length) then
        some .fractionPlacement
      else none
    else none

/-- One entry of the standard-symbol scan of `a_decimal`:
`while i < len(roman) and roman.startswith(symbol, i): result += value; i += len(symbol)`.
In Python this accumulator is an `int` (the table values are ints and `result`
starts at `0`); floats only enter with the fraction glyph below, so the pair
`(result, i)` is `Nat × Nat` here.  The loop advances `i` by
`symbol.length ≥ 1` per iteration, so with fuel `roman.length + 1` the fuel
never runs out on the tables above. -/
def scanSym (r sym : List Char) (v : Nat) : Nat → Nat × Nat → Nat × Nat
  | 0, acc => acc
  | fuel + 1, (res, i) =>
    if i < r.length && leadsWith sym (r.drop i) then
      scanSym r sym v fuel (res + v, i + sym.length)
    else (res, i)

/-- One iteration of `for symbol, value in NumRom._valores_romanos` in
`a_decimal`, with the per-symbol while loop `scanSym` given enough fuel. -/
def scanStep (r : List Char) (acc : Nat × Nat) (p : List Char × Nat) : Nat × Nat :=
  scanSym r p.1 p.2 (r.length + 1) acc

/-- `NumRom.a_decimal`: validate, run the multi-pass greedy scan over the full
digit table, add the first fraction glyph that is a suffix of the whole
string, and require the cursor to have consumed the string exactly. -/
def a_decimal (roman : List Char) : Except RomanError ℚ :=
  if roman.isEmpty then .error .invalidInput
  else
    let r := pyUpper roman
    match _valida_romano r with
    | some e => .error e
    | none =>
      let std := _valores_romanos.foldl (scanStep r) (0, 0)
      let fin : ℚ × Nat :=
        match _valores_fracciones.find? (fun p => endsWith r p.1) with
        | some p => ((std.1 : ℚ) + p.2, std.2 + p.1.length)
        | none => ((std.1 : ℚ), std.2)
      if fin.2 = r.length then .ok fin.1 else .error (.invalidNumeral r)

/-- One entry of the greedy generation loop of `a_romano`:
`while integer_part >= value: result += symbol; integer_part -= value`.
Each iteration lowers `integer_part` by `value ≥ 1`, so fuel
`integer_part + 1` never runs out on the table above. -/
def greedyRun (sym : List Char) (v : Nat) : Nat → List Char × Nat → List Char × Nat
  | 0, acc => acc
  | fuel + 1, (res, ip) =>
    if v ≤ ip ∧ 0 < v then greedyRun sym v fuel (res ++ sym, ip - v)
    else (res, ip)

/-- One iteration of `for symbol, value in NumRom._valores_romanos` in
`a_romano`, with the while loop `greedyRun` given enough fuel. -/
def greedyStep (acc : List Char × Nat) (p : List Char × Nat) : List Char × Nat :=
  greedyRun p.1 p.2 (acc.2 + 1) acc

/-- The full greedy pass of `a_romano` over the digit table, starting from
`("", integer_part)`. -/
def greedyAll (ip : Nat) : List Char × Nat :=
  _valores_romanos.foldl greedyStep ([], ip)

/-- Python `min(iterable, key=lambda x: abs(x[1] - target))`: first element with
strictly minimal key wins ties. -/
def pickClosest (l : List (List Char × ℚ)) (target : ℚ) : List Char × ℚ :=
  match l with
  | [] => ([], 0)
  | x :: xs =>
    xs.foldl (fun best p => if |p.2 - target| < |best.2 - target| then p else best) x

/-- The body of `a_romano` after the range check.  `int(decimal)` truncates
toward zero, which on the non-negative range equals `num.toNat / den`. -/
def romanoBody (decimal : ℚ) : List Char :=
  let integer_part : Nat := decimal.num.toNat / decimal.den
  let fractional_part : ℚ := decimal - (integer_part : ℚ)
  let res : List Char := if 0 < integer_part then (greedyAll integer_part).1 else []
  let res2 : List Char :=
    if 0 < fractional_part then
      let closest := pickClosest _valores_fracciones fractional_part
      if (1 : ℚ)/100 < closest.2 then res ++ closest.1 else res
    else res
  if res2.isEmpty then ['N', 'i', 'h', 'i', 'l'] else res2

/-- `NumRom.a_romano`: range check, greedy standard symbols, closest fraction
glyph, `"Nihil"` for the empty result. -/
def a_romano (decimal : ℚ) : Except RomanError (List Char) :=
  if decimal < 0 ∨ (7999 : ℚ)/2 < decimal then .error .outOfRange
  else .ok (romanoBody decimal)

end NumRom

namespace MedRom

/-- `MedRom._medidas`: unit name → conversion factor (meters, kg or liters),
as an association list in the dict's insertion order.  `0.296` is the exact
decimal `296/1000`, and so on; `uncia` is `0.3289 / 12` as in the source. -/
def _medidas : List (String × ℚ) :=
  [("pes", 296/1000), ("passus", 148/100), ("stadium", 185), ("mille_passus", 1480),
   ("libra", 3289/10000), ("uncia", 3289/10000/12), ("amphora", 262/10),
   ("sextarius", 546/1000)]

/-- `list(MedRom._medidas.keys())`, the unit-name list used in error messages
and by `unidades_disponibles`. -/
def unidades_disponibles : List String := _medidas.map Prod.fst

/-- `MedRom.a_modernas`: lowercase the unit, look it up (unknown unit first,
then negative value), return `value * table[unit]`. -/
def a_modernas (value : ℚ) (unit : String) : Except RomanError ℚ :=
  let u := pyLower unit
  match _medidas.lookup u with
  | none => .error (.unknownUnit unidades_disponibles)
  | some factor =>
    if value < 0 then .error .invalidValue else .ok (value * factor)

/-- `MedRom.a_unidad_romana`: same checks, returns `value / table[unit]`. -/
def a_unidad_romana (value : ℚ) (unit : String) : Except RomanError ℚ :=
  let u := pyLower unit
  match _medidas.lookup u with
  | none => .error (.unknownUnit unidades_disponibles)
  | some factor =>
    if value < 0 then .error .invalidValue else .ok (value / factor)

/-- `MedRom.conversion_unidades`: check both (lowercased) units, then compose
`a_modernas` with `a_unidad_romana` through the metric intermediate. -/
def conversion_unidades (value : ℚ) (from_unit to_unit : String) : Except RomanError ℚ :=
  let fu := pyLower from_unit
  let tu := pyLower to_unit
  if (_medidas.lookup fu).isNone ∨ (_medidas.lookup tu).isNone then
    .error (.invalidUnits unidades_disponibles)
  else
    match a_modernas value fu with
    | .error e => .error e
    | .ok modern_value => a_unidad_romana modern_value tu

end MedRom

/-! ## Derived notions used by the proofs

`repRun`, the digit parts and `romanLetters` are not part of the source; they
are the vocabulary in which the behaviour of the loops above is described. -/

/-- `c` consecutive copies of `sym`, the shape of one while-loop run. -/
def repRun (sym : List Char) : Nat → List Char
  | 0 => []
  | c + 1 => sym ++ repRun sym c

/-- The canonical hundreds-digit encoding produced by the greedy generator. -/
def hundredsPart : Nat → List Char
  | 1 => ['C'] | 2 => ['C', 'C'] | 3 => ['C', 'C', 'C'] | 4 => ['C', 'D']
  | 5 => ['D'] | 6 => ['D', 'C'] | 7 => ['D', 'C', 'C'] | 8 => ['D', 'C', 'C', 'C']
  | 9 => ['C', 'M'] | _ => []

/-- The canonical tens-digit encoding produced by the greedy generator. -/
def tensPart : Nat → List Char
  | 1 => ['X'] | 2 => ['X', 'X'] | 3 => ['X', 'X', 'X'] | 4 => ['X', 'L']
  | 5 => ['L'] | 6 => ['L', 'X'] | 7 => ['L', 'X', 'X'] | 8 => ['L', 'X', 'X', 'X']
  | 9 => ['X', 'C'] | _ => []

/-- The canonical units-digit encoding produced by the greedy generator. -/
def unitsPart : Nat → List Char
  | 1 => ['I'] | 2 => ['I', 'I'] | 3 => ['I', 'I', 'I'] | 4 => ['I', 'V']
  | 5 => ['V'] | 6 => ['V', 'I'] | 7 => ['V', 'I', 'I'] | 8 => ['V', 'I', 'I', 'I']
  | 9 => ['I', 'X'] | _ => []

/-- The digit-wise canonical numeral of `n ≤ 3999`. -/
def canonical (n : Nat) : List Char :=
  repRun ['M'] (n / 1000) ++ hundredsPart (n / 100 % 10) ++
    tensPart (n / 10 % 10) ++ unitsPart (n % 10)

/-- The characters a standard numeral may contain. -/
def romanLetters : List Char := ['M', 'D', 'C', 'L', 'X', 'V', 'I']

/-! ## Basic facts about the string primitives -/

theorem leadsWith_append_self (s u : List Char) : leadsWith s (s ++ u) = true := by
  induction s with
  | nil => rfl
  | cons a as ih => simp [leadsWith, ih]

theorem leadsWith_cons_ex {x : Char} {s t : List Char}
    (h : leadsWith (x :: s) t = true) : ∃ t', t = x :: t' ∧ leadsWith s t' = true := by
  cases t with
  | nil => simp [leadsWith] at h
  | cons y t' =>
    simp only [leadsWith, Bool.and_eq_true, beq_iff_eq] at h
    exact ⟨t', by rw [h.1], h.2⟩

theorem mem_of_hasSubstr_cons {x : Char} {nd s : List Char}
    (h : hasSubstr (x :: nd) s = true) : x ∈ s := by
  induction s with
  | nil => simp [hasSubstr, List.isEmpty] at h
  | cons c rest ih =>
    simp only [hasSubstr, Bool.or_eq_true] at h
    rcases h with h | h
    · obtain ⟨t', ht, -⟩ := leadsWith_cons_ex h
      rw [List.cons.injEq] at ht
      simp [ht.1]
    · exact List.mem_cons_of_mem _ (ih h)

theorem hasSubstr_append_right {x : Char} {nd a b : List Char}
    (h : hasSubstr (x :: nd) (a ++ b) = true) (hx : x ∉ a) :
    hasSubstr (x :: nd) b = true := by
  induction a with
  | nil => simpa using h
  | cons c a' ih =>
    simp only [List.cons_append, hasSubstr, Bool.or_eq_true] at h
    rcases h with h | h
    · obtain ⟨t', ht, -⟩ := leadsWith_cons_ex h
      rw [List.cons.injEq] at ht
      exact absurd (by simp [ht.1]) hx
    · exact ih h (fun hm => hx (List.mem_cons_of_mem _ hm))

theorem leadsWith_append_cases {nd a b : List Char}
    (h : leadsWith nd (a ++ b) = true) :
    leadsWith nd a = true ∨ ∃ x ∈ nd, x ∈ b := by
  induction a generalizing nd with
  | nil =>
    cases nd with
    | nil => exact Or.inl rfl
    | cons x nd' =>
      obtain ⟨t', ht, -⟩ := leadsWith_cons_ex (by simpa using h)
      exact Or.inr ⟨x, List.mem_cons_self x nd', by rw [ht]; exact List.mem_cons_self x t'⟩
  | cons c a' ih =>
    cases nd with
    | nil => exact Or.inl rfl
    | cons x nd' =>
      obtain ⟨t', ht, hlw⟩ := leadsWith_cons_ex h
      rw [List.cons_append, List.cons.injEq] at ht
      rcases ih (ht.2 ▸ hlw) with h' | ⟨y, hy, hyb⟩
      · exact Or.inl (by simp [leadsWith, ht.1, h'])
      · exact Or.inr ⟨y, List.mem_cons_of_mem _ hy, hyb⟩

theorem hasSubstr_append_left {nd a b : List Char}
    (h : hasSubstr nd (a ++ b) = true) (hnd : nd ≠ [])
    (hb : ∀ x ∈ nd, x ∉ b) : hasSubstr nd a = true := by
  induction a with
  | nil =>
    obtain ⟨x, nd', rfl⟩ := List.exists_cons_of_ne_nil hnd
    exact absurd (mem_of_hasSubstr_cons (by simpa using h)) (hb x (List.mem_cons_self x nd'))
  | cons c a' ih =>
    simp only [List.cons_append, hasSubstr, Bool.or_eq_true] at h ⊢
    rcases h with h | h
    · rcases leadsWith_append_cases (a := c :: a') h with h' | ⟨y, hy, hyb⟩
      · exact Or.inl h'
      · exact absurd hyb (hb y hy)
    · exact Or.inr (ih h)

theorem length_repRun (sym : List Char) (c : Nat) :
    (repRun sym c).length = c * sym.length := by
  induction c with
  | zero => simp [repRun]
  | succ c ih => simp [repRun, ih, Nat.succ_mul]; omega

theorem mem_repRun {x : Char} {sym : List Char} {c : Nat}
    (h : x ∈ repRun sym c) : x ∈ sym := by
  induction c with
  | zero => simp [repRun] at h
  | succ c ih =>
    simp only [repRun, List.mem_append] at h
    exact h.elim id ih

theorem pyUpper_eq_self {s : List Char} (h : ∀ c ∈ s, c.toUpper = c) :
    pyUpper s = s := by
  unfold pyUpper
  conv_rhs => rw [show s = s.map id from (List.map_id s).symm]
  exact List.map_congr_left h

/-! ## Closed forms for the two while loops -/

open NumRom MedRom

/-- The standard-symbol while loop consumes exactly a leading run of `c`
copies of `sym` when nothing after the run starts with `sym`. -/
theorem scanSym_run {r sym t : List Char} {v : Nat} (hsym : sym ≠ []) :
    ∀ (c fuel i res : Nat), c < fuel → i ≤ r.length →
      r.drop i = repRun sym c ++ t → leadsWith sym t = false →
      scanSym r sym v fuel (res, i) = (res + c * v, i + c * sym.length) := by
  intro c
  induction c with
  | zero =>
    intro fuel i res hfuel hi hdrop hlw
    cases fuel with
    | zero => omega
    | succ f =>
      simp only [repRun, List.nil_append] at hdrop
      simp [scanSym, hdrop, hlw]
  | succ c ih =>
    intro fuel i res hfuel hi hdrop hlw
    cases fuel with
    | zero => omega
    | succ f =>
      rw [repRun, List.append_assoc] at hdrop
      have hlen : r.length - i = sym.length + ((repRun sym c ++ t).length) := by
        have := congrArg List.length hdrop
        simpa using this
      have hsymlen : 0 < sym.length := List.length_pos.mpr hsym
      have hi' : i < r.length := by omega
      have hguard : leadsWith sym (r.drop i) = true := by
        rw [hdrop]; exact leadsWith_append_self _ _
      have hdrop' : r.drop (i + sym.length) = repRun sym c ++ t := by
        rw [← List.drop_drop, hdrop, List.drop_left]
      have := ih f (i + sym.length) (res + v) (by omega) (by omega) hdrop' hlw
      rw [scanSym, if_pos (by simp [hi', hguard]), this]
      congr 1 <;> ring
/-- The greedy while loop appends exactly `c = ip / v` copies of `sym`,
leaving `ip % v`; stated with an explicit count `c`. -/
theorem greedyRun_count {sym : List Char} {v : Nat} :
    ∀ (c fuel : Nat) (res : List Char) (ip : Nat), 0 < v → c < fuel →
      c * v ≤ ip → ip < (c + 1) * v →
      greedyRun sym v fuel (res, ip) = (res ++ repRun sym c, ip - c * v) := by
  intro c
  induction c with
  | zero =>
    intro fuel res ip hv hfuel hle hlt
    cases fuel with
    | zero => omega
    | succ f =>
      rw [greedyRun, if_neg (by omega)]
      simp [repRun]
  | succ c ih =>
    intro fuel res ip hv hfuel hle hlt
    cases fuel with
    | zero => omega
    | succ f =>
      rw [Nat.succ_mul] at hle hlt
      have hm : c * v + v + v = (c + 1 + 1) * v := by ring
      rw [greedyRun, if_pos ⟨by omega, hv⟩,
        ih f (res ++ sym) (ip - v) hv (by omega) (by omega) (by omega)]
      rw [repRun, Nat.succ_mul, Prod.mk.injEq]
      exact ⟨List.append_assoc _ _ _, by omega⟩

theorem greedyRun_div (sym : List Char) (v fuel : Nat) (res : List Char) (ip : Nat)
    (hv : 0 < v) (hfuel : ip < fuel) :
    greedyRun sym v fuel (res, ip) = (res ++ repRun sym (ip / v), ip % v) := by
  have hmod := Nat.mod_lt ip hv
  have hdm := Nat.div_add_mod ip v
  have hlt : ip < (ip / v + 1) * v :=
    calc ip = v * (ip / v) + ip % v := (Nat.div_add_mod ip v).symm
      _ < v * (ip / v) + v := by omega
      _ = (ip / v + 1) * v := by ring
  have hle : ip / v * v ≤ ip := Nat.div_mul_le_self ip v
  have hc : ip / v < fuel := Nat.lt_of_le_of_lt (Nat.div_le_self ip v) hfuel
  rw [greedyRun_count (ip / v) fuel res ip hv hc hle hlt]
  have : ip - ip / v * v = ip % v := by
    have := Nat.div_add_mod ip v
    have h2 : ip / v * v = v * (ip / v) := Nat.mul_comm _ _
    omega
  rw [this]

theorem greedyStep_eq (l : List Char) (m : Nat) (sym : List Char) (v : Nat)
    (hv : 0 < v) :
    greedyStep (l, m) (sym, v) = (l ++ repRun sym (m / v), m % v) := by
  unfold greedyStep
  exact greedyRun_div sym v (m + 1) l m hv (Nat.lt_succ_self m)

theorem hundredsRuns (m : Nat) (hm : m < 1000) :
    repRun ['C', 'M'] (m / 900) ++ repRun ['D'] (m % 900 / 500) ++
      repRun ['C', 'D'] (m % 900 % 500 / 400) ++ repRun ['C'] (m % 900 % 500 % 400 / 100) =
      hundredsPart (m / 100) := by
  set d := m / 100 with hd
  have hdlt : d < 10 := by omega
  interval_cases d <;>
    simp only [show m / 900 = m / 100 / 9 from by omega, ← hd] <;>
    [rw [show m % 900 / 500 = 0 from by omega, show m % 900 % 500 / 400 = 0 from by omega,
        show m % 900 % 500 % 400 / 100 = 0 from by omega];
     rw [show m % 900 / 500 = 0 from by omega, show m % 900 % 500 / 400 = 0 from by omega,
        show m % 900 % 500 % 400 / 100 = 1 from by omega];
     rw [show m % 900 / 500 = 0 from by omega, show m % 900 % 500 / 400 = 0 from by omega,
        show m % 900 % 500 % 400 / 100 = 2 from by omega];
     rw [show m % 900 / 500 = 0 from by omega, show m % 900 % 500 / 400 = 0 from by omega,
        show m % 900 % 500 % 400 / 100 = 3 from by omega];
     rw [show m % 900 / 500 = 0 from by omega, show m % 900 % 500 / 400 = 1 from by omega,
        show m % 900 % 500 % 400 / 100 = 0 from by omega];
     rw [show m % 900 / 500 = 1 from by omega, show m % 900 % 500 / 400 = 0 from by omega,
        show m % 900 % 500 % 400 / 100 = 0 from by omega];
     rw [show m % 900 / 500 = 1 from by omega, show m % 900 % 500 / 400 = 0 from by omega,
        show m % 900 % 500 % 400 / 100 = 1 from by omega];
     rw [show m % 900 / 500 = 1 from by omega, show m % 900 % 500 / 400 = 0 from by omega,
        show m % 900 % 500 % 400 / 100 = 2 from by omega];
     rw [show m % 900 / 500 = 1 from by omega, show m % 900 % 500 / 400 = 0 from by omega,
        show m % 900 % 500 % 400 / 100 = 3 from by omega];
     rw [show m % 900 / 500 = 0 from by omega, show m % 900 % 500 / 400 = 0 from by omega,
        show m % 900 % 500 % 400 / 100 = 0 from by omega]] <;>
    rfl

theorem tensRuns (m : Nat) (hm : m < 100) :
    repRun ['X', 'C'] (m / 90) ++ repRun ['L'] (m % 90 / 50) ++
      repRun ['X', 'L'] (m % 90 % 50 / 40) ++ repRun ['X'] (m % 90 % 50 % 40 / 10) =
      tensPart (m / 10) := by
  set d := m / 10 with hd
  have hdlt : d < 10 := by omega
  interval_cases d <;>
    simp only [show m / 90 = m / 10 / 9 from by omega, ← hd] <;>
    [rw [show m % 90 / 50 = 0 from by omega, show m % 90 % 50 / 40 = 0 from by omega,
        show m % 90 % 50 % 40 / 10 = 0 from by omega];
     rw [show m % 90 / 50 = 0 from by omega, show m % 90 % 50 / 40 = 0 from by omega,
        show m % 90 % 50 % 40 / 10 = 1 from by omega];
     rw [show m % 90 / 50 = 0 from by omega, show m % 90 % 50 / 40 = 0 from by omega,
        show m % 90 % 50 % 40 / 10 = 2 from by omega];
     rw [show m % 90 / 50 = 0 from by omega, show m % 90 % 50 / 40 = 0 from by omega,
        show m % 90 % 50 % 40 / 10 = 3 from by omega];
     rw [show m % 90 / 50 = 0 from by omega, show m % 90 % 50 / 40 = 1 from by omega,
        show m % 90 % 50 % 40 / 10 = 0 from by omega];
     rw [show m % 90 / 50 = 1 from by omega, show m % 90 % 50 / 40 = 0 from by omega,
        show m % 90 % 50 % 40 / 10 = 0 from by omega];
     rw [show m % 90 / 50 = 1 from by omega, show m % 90 % 50 / 40 = 0 from by omega,
        show m % 90 % 50 % 40 / 10 = 1 from by omega];
     rw [show m % 90 / 50 = 1 from by omega, show m % 90 % 50 / 40 = 0 from by omega,
        show m % 90 % 50 % 40 / 10 = 2 from by omega];
     rw [show m % 90 / 50 = 1 from by omega, show m % 90 % 50 / 40 = 0 from by omega,
        show m % 90 % 50 % 40 / 10 = 3 from by omega];
     rw [show m % 90 / 50 = 0 from by omega, show m % 90 % 50 / 40 = 0 from by omega,
        show m % 90 % 50 % 40 / 10 = 0 from by omega]] <;>
    rfl

theorem unitsRuns (m : Nat) (hm : m < 10) :
    repRun ['I', 'X'] (m / 9) ++ repRun ['V'] (m % 9 / 5) ++
      repRun ['I', 'V'] (m % 9 % 5 / 4) ++ repRun ['I'] (m % 9 % 5 % 4 / 1) =
      unitsPart m := by
  interval_cases m <;> rfl

/-- The greedy generation loop produces exactly the canonical digit-wise
numeral, consuming `integer_part` completely. -/
theorem greedyAll_canonical (n : Nat) : greedyAll n = (canonical n, 0) := by
  have h100 : n % 1000 % 900 % 500 % 400 % 100 = n % 100 := by omega
  have h10 : n % 100 % 90 % 50 % 40 % 10 = n % 10 := by omega
  have hdig1 : n % 1000 / 100 = n / 100 % 10 := by omega
  have hdig2 : n % 100 / 10 = n / 10 % 10 := by omega
  have hrem : n % 10 % 9 % 5 % 4 % 1 = 0 := by omega
  simp only [greedyAll, _valores_romanos, List.foldl_cons, List.foldl_nil]
  rw [greedyStep_eq _ _ _ 1000 (by norm_num), greedyStep_eq _ _ _ 900 (by norm_num),
    greedyStep_eq _ _ _ 500 (by norm_num), greedyStep_eq _ _ _ 400 (by norm_num),
    greedyStep_eq _ _ _ 100 (by norm_num), greedyStep_eq _ _ _ 90 (by norm_num),
    greedyStep_eq _ _ _ 50 (by norm_num), greedyStep_eq _ _ _ 40 (by norm_num),
    greedyStep_eq _ _ _ 10 (by norm_num), greedyStep_eq _ _ _ 9 (by norm_num),
    greedyStep_eq _ _ _ 5 (by norm_num), greedyStep_eq _ _ _ 4 (by norm_num),
    greedyStep_eq _ _ _ 1 (by norm_num)]
  simp only [h100, h10, hrem]
  rw [canonical, ← hdig1, ← hdig2, ← hundredsRuns (n % 1000) (by omega),
    ← tensRuns (n % 100) (by omega), ← unitsRuns (n % 10) (by omega)]
  simp [List.append_assoc]

/-! ## Scanning the canonical numeral -/

theorem head_ne_of_not_mem {x : Char} {t : List Char} (h : x ∉ t) :
    ∀ y, t.head? = some y → y ≠ x := by
  intro y hy he
  subst he
  cases t with
  | nil => simp at hy
  | cons a t' =>
    simp only [List.head?_cons, Option.some.injEq] at hy
    refine h ?_
    rw [← hy]
    exact List.mem_cons_self a t'

theorem leadsWith_single_false {x : Char} {t : List Char}
    (h : ∀ y, t.head? = some y → y ≠ x) : leadsWith [x] t = false := by
  cases t with
  | nil => rfl
  | cons y t' =>
    have hy : (x == y) = false :=
      beq_eq_false_iff_ne.mpr (fun he => (h y rfl) he.symm)
    simp [leadsWith, hy]

theorem leadsWith_pair_false {a b : Char} {t : List Char} (h : b ∉ t) :
    leadsWith [a, b] t = false := by
  cases t with
  | nil => rfl
  | cons y t' =>
    cases t' with
    | nil => simp [leadsWith]
    | cons z t'' =>
      have hz : (b == z) = false := by
        apply beq_eq_false_iff_ne.mpr
        intro he
        subst he
        exact h (List.mem_cons_of_mem y (List.mem_cons_self b t''))
      simp [leadsWith, hz]

/-- One `for`-iteration of the standard scan, packaged: it consumes the
leading `c`-fold run of its symbol and nothing else. -/
theorem scanStep_consume (r sym : List Char) (v c i res : Nat) (t : List Char)
    (j k : Nat) (hsym : sym ≠ []) (hi : i ≤ r.length)
    (hdrop : r.drop i = repRun sym c ++ t) (hlw : leadsWith sym t = false)
    (hj : j = res + c * v) (hk : k = i + c * sym.length) :
    scanStep r (res, i) (sym, v) = (j, k) := by
  unfold scanStep
  have hlen : r.length - i = (repRun sym c ++ t).length := by
    have := congrArg List.length hdrop
    simpa using this
  have hsymlen : 0 < sym.length := List.length_pos.mpr hsym
  have hcle : c ≤ c * sym.length := Nat.le_mul_of_pos_right c hsymlen
  have hclen : c * sym.length + t.length = r.length - i := by
    rw [hlen]; simp [length_repRun]
  rw [scanSym_run hsym c (r.length + 1) i res (by omega) hi hdrop hlw, hj, hk]
theorem scanHundreds (r t : List Char) (i res b : Nat) (hb : b < 10)
    (hi : i ≤ r.length) (hdrop : r.drop i = hundredsPart b ++ t)
    (hM : 'M' ∉ t) (hD : 'D' ∉ t) (hC : t.head? ≠ some 'C') :
    List.foldl (scanStep r) (res, i) [(['C', 'M'], 900), (['D'], 500), (['C', 'D'], 400), (['C'], 100)]
      = (res + 100 * b, i + (hundredsPart b).length) := by
  have hlen : r.length - i = (hundredsPart b ++ t).length := by
    have := congrArg List.length hdrop
    simpa using this
  simp only [List.foldl_cons, List.foldl_nil]
  interval_cases b
  · -- digit 0: part = []
    have hlen' : r.length - i = 0 + t.length := by
      have hx := hlen; simp [hundredsPart] at hx; omega
    have h0 : r.drop i = t := by simpa [hundredsPart] using hdrop
    rw [scanStep_consume r ['C', 'M'] 900 0 i res (t) res i (by decide) hi (by simpa [repRun] using h0) (leadsWith_pair_false (by simp [hM])) (by omega) (by norm_num),
      scanStep_consume r ['D'] 500 0 i res (t) res i (by decide) hi (by simpa [repRun] using h0) (leadsWith_single_false (head_ne_of_not_mem hD)) (by omega) (by norm_num),
      scanStep_consume r ['C', 'D'] 400 0 i res (t) res i (by decide) hi (by simpa [repRun] using h0) (leadsWith_pair_false (by simp [hD])) (by omega) (by norm_num),
      scanStep_consume r ['C'] 100 0 i res (t) res i (by decide) hi (by simpa [repRun] using h0) (leadsWith_single_false (fun y hy he => hC (he ▸ hy))) (by omega) (by norm_num)]
    simp [hundredsPart]
  · -- digit 1: part = ['C']
    have hlen' : r.length - i = 1 + t.length := by
      have hx := hlen; simp [hundredsPart] at hx; omega
    have h0 : r.drop i = 'C' :: t := by simpa [hundredsPart] using hdrop
    rw [scanStep_consume r ['C', 'M'] 900 0 i res ('C' :: t) res i (by decide) hi (by simpa [repRun] using h0) (leadsWith_pair_false (by simp [hM])) (by omega) (by norm_num),
      scanStep_consume r ['D'] 500 0 i res ('C' :: t) res i (by decide) hi (by simpa [repRun] using h0) (by simp [leadsWith]) (by omega) (by norm_num),
      scanStep_consume r ['C', 'D'] 400 0 i res ('C' :: t) res i (by decide) hi (by simpa [repRun] using h0) (leadsWith_pair_false (by simp [hD])) (by omega) (by norm_num),
      scanStep_consume r ['C'] 100 1 i res (t) (res + 100) (i + 1) (by decide) hi (by simpa [repRun] using h0) (leadsWith_single_false (fun y hy he => hC (he ▸ hy))) (by omega) (by norm_num)]
    simp [hundredsPart]
  · -- digit 2: part = ['C', 'C']
    have hlen' : r.length - i = 2 + t.length := by
      have hx := hlen; simp [hundredsPart] at hx; omega
    have h0 : r.drop i = 'C' :: 'C' :: t := by simpa [hundredsPart] using hdrop
    rw [scanStep_consume r ['C', 'M'] 900 0 i res ('C' :: 'C' :: t) res i (by decide) hi (by simpa [repRun] using h0) (leadsWith_pair_false (by simp [hM])) (by omega) (by norm_num),
      scanStep_consume r ['D'] 500 0 i res ('C' :: 'C' :: t) res i (by decide) hi (by simpa [repRun] using h0) (by simp [leadsWith]) (by omega) (by norm_num),
      scanStep_consume r ['C', 'D'] 400 0 i res ('C' :: 'C' :: t) res i (by decide) hi (by simpa [repRun] using h0) (leadsWith_pair_false (by simp [hD])) (by omega) (by norm_num),
      scanStep_consume r ['C'] 100 2 i res (t) (res + 200) (i + 2) (by decide) hi (by simpa [repRun] using h0) (leadsWith_single_false (fun y hy he => hC (he ▸ hy))) (by omega) (by norm_num)]
    simp [hundredsPart]
  · -- digit 3: part = ['C', 'C', 'C']
    have hlen' : r.length - i = 3 + t.length := by
      have hx := hlen; simp [hundredsPart] at hx; omega
    have h0 : r.drop i = 'C' :: 'C' :: 'C' :: t := by simpa [hundredsPart] using hdrop
    rw [scanStep_consume r ['C', 'M'] 900 0 i res ('C' :: 'C' :: 'C' :: t) res i (by decide) hi (by simpa [repRun] using h0) (leadsWith_pair_false (by simp [hM])) (by omega) (by norm_num),
      scanStep_consume r ['D'] 500 0 i res ('C' :: 'C' :: 'C' :: t) res i (by decide) hi (by simpa [repRun] using h0) (by simp [leadsWith]) (by omega) (by norm_num),
      scanStep_consume r ['C', 'D'] 400 0 i res ('C' :: 'C' :: 'C' :: t) res i (by decide) hi (by simpa [repRun] using h0) (leadsWith_pair_false (by simp [hD])) (by omega) (by norm_num),
      scanStep_consume r ['C'] 100 3 i res (t) (res + 300) (i + 3) (by decide) hi (by simpa [repRun] using h0) (leadsWith_single_false (fun y hy he => hC (he ▸ hy))) (by omega) (by norm_num)]
    simp [hundredsPart]
  · -- digit 4: part = ['C', 'D']
    have hlen' : r.length - i = 2 + t.length := by
      have hx := hlen; simp [hundredsPart] at hx; omega
    have h0 : r.drop i = 'C' :: 'D' :: t := by simpa [hundredsPart] using hdrop
    have h2 : r.drop (i + 2) = t := by
      rw [← List.drop_drop, h0]
      rfl
    rw [scanStep_consume r ['C', 'M'] 900 0 i res ('C' :: 'D' :: t) res i (by decide) hi (by simpa [repRun] using h0) (leadsWith_pair_false (by simp [hM])) (by omega) (by norm_num),
      scanStep_consume r ['D'] 500 0 i res ('C' :: 'D' :: t) res i (by decide) hi (by simpa [repRun] using h0) (by simp [leadsWith]) (by omega) (by norm_num),
      scanStep_consume r ['C', 'D'] 400 1 i res (t) (res + 400) (i + 2) (by decide) hi (by simpa [repRun] using h0) (leadsWith_pair_false (by simp [hD])) (by omega) (by norm_num),
      scanStep_consume r ['C'] 100 0 (i + 2) (res + 400) (t) (res + 400) (i + 2) (by decide) (by omega) (by simpa [repRun] using h2) (leadsWith_single_false (fun y hy he => hC (he ▸ hy))) (by omega) (by norm_num)]
    simp [hundredsPart]
  · -- digit 5: part = ['D']
    have hlen' : r.length - i = 1 + t.length := by
      have hx := hlen; simp [hundredsPart] at hx; omega
    have h0 : r.drop i = 'D' :: t := by simpa [hundredsPart] using hdrop
    have h1 : r.drop (i + 1) = t := by
      rw [← List.drop_drop, h0]
      rfl
    rw [scanStep_consume r ['C', 'M'] 900 0 i res ('D' :: t) res i (by decide) hi (by simpa [repRun] using h0) (leadsWith_pair_false (by simp [hM])) (by omega) (by norm_num),
      scanStep_consume r ['D'] 500 1 i res (t) (res + 500) (i + 1) (by decide) hi (by simpa [repRun] using h0) (leadsWith_single_false (head_ne_of_not_mem hD)) (by omega) (by norm_num),
      scanStep_consume r ['C', 'D'] 400 0 (i + 1) (res + 500) (t) (res + 500) (i + 1) (by decide) (by omega) (by simpa [repRun] using h1) (leadsWith_pair_false (by simp [hD])) (by omega) (by norm_num),
      scanStep_consume r ['C'] 100 0 (i + 1) (res + 500) (t) (res + 500) (i + 1) (by decide) (by omega) (by simpa [repRun] using h1) (leadsWith_single_false (fun y hy he => hC (he ▸ hy))) (by omega) (by norm_num)]
    simp [hundredsPart]
  · -- digit 6: part = ['D', 'C']
    have hlen' : r.length - i = 2 + t.length := by
      have hx := hlen; simp [hundredsPart] at hx; omega
    have h0 : r.drop i = 'D' :: 'C' :: t := by simpa [hundredsPart] using hdrop
    have h1 : r.drop (i + 1) = 'C' :: t := by
      rw [← List.drop_drop, h0]
      rfl
    rw [scanStep_consume r ['C', 'M'] 900 0 i res ('D' :: 'C' :: t) res i (by decide) hi (by simpa [repRun] using h0) (leadsWith_pair_false (by simp [hM])) (by omega) (by norm_num),
      scanStep_consume r ['D'] 500 1 i res ('C' :: t) (res + 500) (i + 1) (by decide) hi (by simpa [repRun] using h0) (by simp [leadsWith]) (by omega) (by norm_num),
      scanStep_consume r ['C', 'D'] 400 0 (i + 1) (res + 500) ('C' :: t) (res + 500) (i + 1) (by decide) (by omega) (by simpa [repRun] using h1) (leadsWith_pair_false (by simp [hD])) (by omega) (by norm_num),
      scanStep_consume r ['C'] 100 1 (i + 1) (res + 500) (t) (res + 600) (i + 2) (by decide) (by omega) (by simpa [repRun] using h1) (leadsWith_single_false (fun y hy he => hC (he ▸ hy))) (by omega) (by norm_num)]
    simp [hundredsPart]
  · -- digit 7: part = ['D', 'C', 'C']
    have hlen' : r.length - i = 3 + t.length := by
      have hx := hlen; simp [hundredsPart] at hx; omega
    have h0 : r.drop i = 'D' :: 'C' :: 'C' :: t := by simpa [hundredsPart] using hdrop
    have h1 : r.drop (i + 1) = 'C' :: 'C' :: t := by
      rw [← List.drop_drop, h0]
      rfl
    rw [scanStep_consume r ['C', 'M'] 900 0 i res ('D' :: 'C' :: 'C' :: t) res i (by decide) hi (by simpa [repRun] using h0) (leadsWith_pair_false (by simp [hM])) (by omega) (by norm_num),
      scanStep_consume r ['D'] 500 1 i res ('C' :: 'C' :: t) (res + 500) (i + 1) (by decide) hi (by simpa [repRun] using h0) (by simp [leadsWith]) (by omega) (by norm_num),
      scanStep_consume r ['C', 'D'] 400 0 (i + 1) (res + 500) ('C' :: 'C' :: t) (res + 500) (i + 1) (by decide) (by omega) (by simpa [repRun] using h1) (leadsWith_pair_false (by simp [hD])) (by omega) (by norm_num),
      scanStep_consume r ['C'] 100 2 (i + 1) (res + 500) (t) (res + 700) (i + 3) (by decide) (by omega) (by simpa [repRun] using h1) (leadsWith_single_false (fun y hy he => hC (he ▸ hy))) (by omega) (by norm_num)]
    simp [hundredsPart]
  · -- digit 8: part = ['D', 'C', 'C', 'C']
    have hlen' : r.length - i = 4 + t.length := by
      have hx := hlen; simp [hundredsPart] at hx; omega
    have h0 : r.drop i = 'D' :: 'C' :: 'C' :: 'C' :: t := by simpa [hundredsPart] using hdrop
    have h1 : r.drop (i + 1) = 'C' :: 'C' :: 'C' :: t := by
      rw [← List.drop_drop, h0]
      rfl
    rw [scanStep_consume r ['C', 'M'] 900 0 i res ('D' :: 'C' :: 'C' :: 'C' :: t) res i (by decide) hi (by simpa [repRun] using h0) (leadsWith_pair_false (by simp [hM])) (by omega) (by norm_num),
      scanStep_consume r ['D'] 500 1 i res ('C' :: 'C' :: 'C' :: t) (res + 500) (i + 1) (by decide) hi (by simpa [repRun] using h0) (by simp [leadsWith]) (by omega) (by norm_num),
      scanStep_consume r ['C', 'D'] 400 0 (i + 1) (res + 500) ('C' :: 'C' :: 'C' :: t) (res + 500) (i + 1) (by decide) (by omega) (by simpa [repRun] using h1) (leadsWith_pair_false (by simp [hD])) (by omega) (by norm_num),
      scanStep_consume r ['C'] 100 3 (i + 1) (res + 500) (t) (res + 800) (i + 4) (by decide) (by omega) (by simpa [repRun] using h1) (leadsWith_single_false (fun y hy he => hC (he ▸ hy))) (by omega) (by norm_num)]
    simp [hundredsPart]
  · -- digit 9: part = ['C', 'M']
    have hlen' : r.length - i = 2 + t.length := by
      have hx := hlen; simp [hundredsPart] at hx; omega
    have h0 : r.drop i = 'C' :: 'M' :: t := by simpa [hundredsPart] using hdrop
    have h2 : r.drop (i + 2) = t := by
      rw [← List.drop_drop, h0]
      rfl
    rw [scanStep_consume r ['C', 'M'] 900 1 i res (t) (res + 900) (i + 2) (by decide) hi (by simpa [repRun] using h0) (leadsWith_pair_false (by simp [hM])) (by omega) (by norm_num),
      scanStep_consume r ['D'] 500 0 (i + 2) (res + 900) (t) (res + 900) (i + 2) (by decide) (by omega) (by simpa [repRun] using h2) (leadsWith_single_false (head_ne_of_not_mem hD)) (by omega) (by norm_num),
      scanStep_consume r ['C', 'D'] 400 0 (i + 2) (res + 900) (t) (res + 900) (i + 2) (by decide) (by omega) (by simpa [repRun] using h2) (leadsWith_pair_false (by simp [hD])) (by omega) (by norm_num),
      scanStep_consume r ['C'] 100 0 (i + 2) (res + 900) (t) (res + 900) (i + 2) (by decide) (by omega) (by simpa [repRun] using h2) (leadsWith_single_false (fun y hy he => hC (he ▸ hy))) (by omega) (by norm_num)]
    simp [hundredsPart]

theorem scanTens (r t : List Char) (i res b : Nat) (hb : b < 10)
    (hi : i ≤ r.length) (hdrop : r.drop i = tensPart b ++ t)
    (hC : 'C' ∉ t) (hL : 'L' ∉ t) (hX : t.head? ≠ some 'X') :
    List.foldl (scanStep r) (res, i) [(['X', 'C'], 90), (['L'], 50), (['X', 'L'], 40), (['X'], 10)]
      = (res + 10 * b, i + (tensPart b).length) := by
  have hlen : r.length - i = (tensPart b ++ t).length := by
    have := congrArg List.length hdrop
    simpa using this
  simp only [List.foldl_cons, List.foldl_nil]
  interval_cases b
  · -- digit 0: part = []
    have hlen' : r.length - i = 0 + t.length := by
      have hx := hlen; simp [tensPart] at hx; omega
    have h0 : r.drop i = t := by simpa [tensPart] using hdrop
    rw [scanStep_consume r ['X', 'C'] 90 0 i res (t) res i (by decide) hi (by simpa [repRun] using h0) (leadsWith_pair_false (by simp [hC])) (by omega) (by norm_num),
      scanStep_consume r ['L'] 50 0 i res (t) res i (by decide) hi (by simpa [repRun] using h0) (leadsWith_single_false (head_ne_of_not_mem hL)) (by omega) (by norm_num),
      scanStep_consume r ['X', 'L'] 40 0 i res (t) res i (by decide) hi (by simpa [repRun] using h0) (leadsWith_pair_false (by simp [hL])) (by omega) (by norm_num),
      scanStep_consume r ['X'] 10 0 i res (t) res i (by decide) hi (by simpa [repRun] using h0) (leadsWith_single_false (fun y hy he => hX (he ▸ hy))) (by omega) (by norm_num)]
    simp [tensPart]
  · -- digit 1: part = ['X']
    have hlen' : r.length - i = 1 + t.length := by
      have hx := hlen; simp [tensPart] at hx; omega
    have h0 : r.drop i = 'X' :: t := by simpa [tensPart] using hdrop
    rw [scanStep_consume r ['X', 'C'] 90 0 i res ('X' :: t) res i (by decide) hi (by simpa [repRun] using h0) (leadsWith_pair_false (by simp [hC])) (by omega) (by norm_num),
      scanStep_consume r ['L'] 50 0 i res ('X' :: t) res i (by decide) hi (by simpa [repRun] using h0) (by simp [leadsWith]) (by omega) (by norm_num),
      scanStep_consume r ['X', 'L'] 40 0 i res ('X' :: t) res i (by decide) hi (by simpa [repRun] using h0) (leadsWith_pair_false (by simp [hL])) (by omega) (by norm_num),
      scanStep_consume r ['X'] 10 1 i res (t) (res + 10) (i + 1) (by decide) hi (by simpa [repRun] using h0) (leadsWith_single_false (fun y hy he => hX (he ▸ hy))) (by omega) (by norm_num)]
    simp [tensPart]
  · -- digit 2: part = ['X', 'X']
    have hlen' : r.length - i = 2 + t.length := by
      have hx := hlen; simp [tensPart] at hx; omega
    have h0 : r.drop i = 'X' :: 'X' :: t := by simpa [tensPart] using hdrop
    rw [scanStep_consume r ['X', 'C'] 90 0 i res ('X' :: 'X' :: t) res i (by decide) hi (by simpa [repRun] using h0) (leadsWith_pair_false (by simp [hC])) (by omega) (by norm_num),
      scanStep_consume r ['L'] 50 0 i res ('X' :: 'X' :: t) res i (by decide) hi (by simpa [repRun] using h0) (by simp [leadsWith]) (by omega) (by norm_num),
      scanStep_consume r ['X', 'L'] 40 0 i res ('X' :: 'X' :: t) res i (by decide) hi (by simpa [repRun] using h0) (leadsWith_pair_false (by simp [hL])) (by omega) (by norm_num),
      scanStep_consume r ['X'] 10 2 i res (t) (res + 20) (i + 2) (by decide) hi (by simpa [repRun] using h0) (leadsWith_single_false (fun y hy he => hX (he ▸ hy))) (by omega) (by norm_num)]
    simp [tensPart]
  · -- digit 3: part = ['X', 'X', 'X']
    have hlen' : r.length - i = 3 + t.length := by
      have hx := hlen; simp [tensPart] at hx; omega
    have h0 : r.drop i = 'X' :: 'X' :: 'X' :: t := by simpa [tensPart] using hdrop
    rw [scanStep_consume r ['X', 'C'] 90 0 i res ('X' :: 'X' :: 'X' :: t) res i (by decide) hi (by simpa [repRun] using h0) (leadsWith_pair_false (by simp [hC])) (by omega) (by norm_num),
      scanStep_consume r ['L'] 50 0 i res ('X' :: 'X' :: 'X' :: t) res i (by decide) hi (by simpa [repRun] using h0) (by simp [leadsWith]) (by omega) (by norm_num),
      scanStep_consume r ['X', 'L'] 40 0 i res ('X' :: 'X' :: 'X' :: t) res i (by decide) hi (by simpa [repRun] using h0) (leadsWith_pair_false (by simp [hL])) (by omega) (by norm_num),
      scanStep_consume r ['X'] 10 3 i res (t) (res + 30) (i + 3) (by decide) hi (by simpa [repRun] using h0) (leadsWith_single_false (fun y hy he => hX (he ▸ hy))) (by omega) (by norm_num)]
    simp [tensPart]
  · -- digit 4: part = ['X', 'L']
    have hlen' : r.length - i = 2 + t.length := by
      have hx := hlen; simp [tensPart] at hx; omega
    have h0 : r.drop i = 'X' :: 'L' :: t := by simpa [tensPart] using hdrop
    have h2 : r.drop (i + 2) = t := by
      rw [← List.drop_drop, h0]
      rfl
    rw [scanStep_consume r ['X', 'C'] 90 0 i res ('X' :: 'L' :: t) res i (by decide) hi (by simpa [repRun] using h0) (leadsWith_pair_false (by simp [hC])) (by omega) (by norm_num),
      scanStep_consume r ['L'] 50 0 i res ('X' :: 'L' :: t) res i (by decide) hi (by simpa [repRun] using h0) (by simp [leadsWith]) (by omega) (by norm_num),
      scanStep_consume r ['X', 'L'] 40 1 i res (t) (res + 40) (i + 2) (by decide) hi (by simpa [repRun] using h0) (leadsWith_pair_false (by simp [hL])) (by omega) (by norm_num),
      scanStep_consume r ['X'] 10 0 (i + 2) (res + 40) (t) (res + 40) (i + 2) (by decide) (by omega) (by simpa [repRun] using h2) (leadsWith_single_false (fun y hy he => hX (he ▸ hy))) (by omega) (by norm_num)]
    simp [tensPart]
  · -- digit 5: part = ['L']
    have hlen' : r.length - i = 1 + t.length := by
      have hx := hlen; simp [tensPart] at hx; omega
    have h0 : r.drop i = 'L' :: t := by simpa [tensPart] using hdrop
    have h1 : r.drop (i + 1) = t := by
      rw [← List.drop_drop, h0]
      rfl
    rw [scanStep_consume r ['X', 'C'] 90 0 i res ('L' :: t) res i (by decide) hi (by simpa [repRun] using h0) (leadsWith_pair_false (by simp [hC])) (by omega) (by norm_num),
      scanStep_consume r ['L'] 50 1 i res (t) (res + 50) (i + 1) (by decide) hi (by simpa [repRun] using h0) (leadsWith_single_false (head_ne_of_not_mem hL)) (by omega) (by norm_num),
      scanStep_consume r ['X', 'L'] 40 0 (i + 1) (res + 50) (t) (res + 50) (i + 1) (by decide) (by omega) (by simpa [repRun] using h1) (leadsWith_pair_false (by simp [hL])) (by omega) (by norm_num),
      scanStep_consume r ['X'] 10 0 (i + 1) (res + 50) (t) (res + 50) (i + 1) (by decide) (by omega) (by simpa [repRun] using h1) (leadsWith_single_false (fun y hy he => hX (he ▸ hy))) (by omega) (by norm_num)]
    simp [tensPart]
  · -- digit 6: part = ['L', 'X']
    have hlen' : r.length - i = 2 + t.length := by
      have hx := hlen; simp [tensPart] at hx; omega
    have h0 : r.drop i = 'L' :: 'X' :: t := by simpa [tensPart] using hdrop
    have h1 : r.drop (i + 1) = 'X' :: t := by
      rw [← List.drop_drop, h0]
      rfl
    rw [scanStep_consume r ['X', 'C'] 90 0 i res ('L' :: 'X' :: t) res i (by decide) hi (by simpa [repRun] using h0) (leadsWith_pair_false (by simp [hC])) (by omega) (by norm_num),
      scanStep_consume r ['L'] 50 1 i res ('X' :: t) (res + 50) (i + 1) (by decide) hi (by simpa [repRun] using h0) (by simp [leadsWith]) (by omega) (by norm_num),
      scanStep_consume r ['X', 'L'] 40 0 (i + 1) (res + 50) ('X' :: t) (res + 50) (i + 1) (by decide) (by omega) (by simpa [repRun] using h1) (leadsWith_pair_false (by simp [hL])) (by omega) (by norm_num),
      scanStep_consume r ['X'] 10 1 (i + 1) (res + 50) (t) (res + 60) (i + 2) (by decide) (by omega) (by simpa [repRun] using h1) (leadsWith_single_false (fun y hy he => hX (he ▸ hy))) (by omega) (by norm_num)]
    simp [tensPart]
  · -- digit 7: part = ['L', 'X', 'X']
    have hlen' : r.length - i = 3 + t.length := by
      have hx := hlen; simp [tensPart] at hx; omega
    have h0 : r.drop i = 'L' :: 'X' :: 'X' :: t := by simpa [tensPart] using hdrop
    have h1 : r.drop (i + 1) = 'X' :: 'X' :: t := by
      rw [← List.drop_drop, h0]
      rfl
    rw [scanStep_consume r ['X', 'C'] 90 0 i res ('L' :: 'X' :: 'X' :: t) res i (by decide) hi (by simpa [repRun] using h0) (leadsWith_pair_false (by simp [hC])) (by omega) (by norm_num),
      scanStep_consume r ['L'] 50 1 i res ('X' :: 'X' :: t) (res + 50) (i + 1) (by decide) hi (by simpa [repRun] using h0) (by simp [leadsWith]) (by omega) (by norm_num),
      scanStep_consume r ['X', 'L'] 40 0 (i + 1) (res + 50) ('X' :: 'X' :: t) (res + 50) (i + 1) (by decide) (by omega) (by simpa [repRun] using h1) (leadsWith_pair_false (by simp [hL])) (by omega) (by norm_num),
      scanStep_consume r ['X'] 10 2 (i + 1) (res + 50) (t) (res + 70) (i + 3) (by decide) (by omega) (by simpa [repRun] using h1) (leadsWith_single_false (fun y hy he => hX (he ▸ hy))) (by omega) (by norm_num)]
    simp [tensPart]
  · -- digit 8: part = ['L', 'X', 'X', 'X']
    have hlen' : r.length - i = 4 + t.length := by
      have hx := hlen; simp [tensPart] at hx; omega
    have h0 : r.drop i = 'L' :: 'X' :: 'X' :: 'X' :: t := by simpa [tensPart] using hdrop
    have h1 : r.drop (i + 1) = 'X' :: 'X' :: 'X' :: t := by
      rw [← List.drop_drop, h0]
      rfl
    rw [scanStep_consume r ['X', 'C'] 90 0 i res ('L' :: 'X' :: 'X' :: 'X' :: t) res i (by decide) hi (by simpa [repRun] using h0) (leadsWith_pair_false (by simp [hC])) (by omega) (by norm_num),
      scanStep_consume r ['L'] 50 1 i res ('X' :: 'X' :: 'X' :: t) (res + 50) (i + 1) (by decide) hi (by simpa [repRun] using h0) (by simp [leadsWith]) (by omega) (by norm_num),
      scanStep_consume r ['X', 'L'] 40 0 (i + 1) (res + 50) ('X' :: 'X' :: 'X' :: t) (res + 50) (i + 1) (by decide) (by omega) (by simpa [repRun] using h1) (leadsWith_pair_false (by simp [hL])) (by omega) (by norm_num),
      scanStep_consume r ['X'] 10 3 (i + 1) (res + 50) (t) (res + 80) (i + 4) (by decide) (by omega) (by simpa [repRun] using h1) (leadsWith_single_false (fun y hy he => hX (he ▸ hy))) (by omega) (by norm_num)]
    simp [tensPart]
  · -- digit 9: part = ['X', 'C']
    have hlen' : r.length - i = 2 + t.length := by
      have hx := hlen; simp [tensPart] at hx; omega
    have h0 : r.drop i = 'X' :: 'C' :: t := by simpa [tensPart] using hdrop
    have h2 : r.drop (i + 2) = t := by
      rw [← List.drop_drop, h0]
      rfl
    rw [scanStep_consume r ['X', 'C'] 90 1 i res (t) (res + 90) (i + 2) (by decide) hi (by simpa [repRun] using h0) (leadsWith_pair_false (by simp [hC])) (by omega) (by norm_num),
      scanStep_consume r ['L'] 50 0 (i + 2) (res + 90) (t) (res + 90) (i + 2) (by decide) (by omega) (by simpa [repRun] using h2) (leadsWith_single_false (head_ne_of_not_mem hL)) (by omega) (by norm_num),
      scanStep_consume r ['X', 'L'] 40 0 (i + 2) (res + 90) (t) (res + 90) (i + 2) (by decide) (by omega) (by simpa [repRun] using h2) (leadsWith_pair_false (by simp [hL])) (by omega) (by norm_num),
      scanStep_consume r ['X'] 10 0 (i + 2) (res + 90) (t) (res + 90) (i + 2) (by decide) (by omega) (by simpa [repRun] using h2) (leadsWith_single_false (fun y hy he => hX (he ▸ hy))) (by omega) (by norm_num)]
    simp [tensPart]

theorem scanUnits (r t : List Char) (i res b : Nat) (hb : b < 10)
    (hi : i ≤ r.length) (hdrop : r.drop i = unitsPart b ++ t)
    (hX : 'X' ∉ t) (hV : 'V' ∉ t) (hI : t.head? ≠ some 'I') :
    List.foldl (scanStep r) (res, i) [(['I', 'X'], 9), (['V'], 5), (['I', 'V'], 4), (['I'], 1)]
      = (res + 1 * b, i + (unitsPart b).length) := by
  have hlen : r.length - i = (unitsPart b ++ t).length := by
    have := congrArg List.length hdrop
    simpa using this
  simp only [List.foldl_cons, List.foldl_nil]
  interval_cases b
  · -- digit 0: part = []
    have hlen' : r.length - i = 0 + t.length := by
      have hx := hlen; simp [unitsPart] at hx; omega
    have h0 : r.drop i = t := by simpa [unitsPart] using hdrop
    rw [scanStep_consume r ['I', 'X'] 9 0 i res (t) res i (by decide) hi (by simpa [repRun] using h0) (leadsWith_pair_false (by simp [hX])) (by omega) (by norm_num),
      scanStep_consume r ['V'] 5 0 i res (t) res i (by decide) hi (by simpa [repRun] using h0) (leadsWith_single_false (head_ne_of_not_mem hV)) (by omega) (by norm_num),
      scanStep_consume r ['I', 'V'] 4 0 i res (t) res i (by decide) hi (by simpa [repRun] using h0) (leadsWith_pair_false (by simp [hV])) (by omega) (by norm_num),
      scanStep_consume r ['I'] 1 0 i res (t) res i (by decide) hi (by simpa [repRun] using h0) (leadsWith_single_false (fun y hy he => hI (he ▸ hy))) (by omega) (by norm_num)]
    simp [unitsPart]
  · -- digit 1: part = ['I']
    have hlen' : r.length - i = 1 + t.length := by
      have hx := hlen; simp [unitsPart] at hx; omega
    have h0 : r.drop i = 'I' :: t := by simpa [unitsPart] using hdrop
    rw [scanStep_consume r ['I', 'X'] 9 0 i res ('I' :: t) res i (by decide) hi (by simpa [repRun] using h0) (leadsWith_pair_false (by simp [hX])) (by omega) (by norm_num),
      scanStep_consume r ['V'] 5 0 i res ('I' :: t) res i (by decide) hi (by simpa [repRun] using h0) (by simp [leadsWith]) (by omega) (by norm_num),
      scanStep_consume r ['I', 'V'] 4 0 i res ('I' :: t) res i (by decide) hi (by simpa [repRun] using h0) (leadsWith_pair_false (by simp [hV])) (by omega) (by norm_num),
      scanStep_consume r ['I'] 1 1 i res (t) (res + 1) (i + 1) (by decide) hi (by simpa [repRun] using h0) (leadsWith_single_false (fun y hy he => hI (he ▸ hy))) (by omega) (by norm_num)]
    simp [unitsPart]
  · -- digit 2: part = ['I', 'I']
    have hlen' : r.length - i = 2 + t.length := by
      have hx := hlen; simp [unitsPart] at hx; omega
    have h0 : r.drop i = 'I' :: 'I' :: t := by simpa [unitsPart] using hdrop
    rw [scanStep_consume r ['I', 'X'] 9 0 i res ('I' :: 'I' :: t) res i (by decide) hi (by simpa [repRun] using h0) (leadsWith_pair_false (by simp [hX])) (by omega) (by norm_num),
      scanStep_consume r ['V'] 5 0 i res ('I' :: 'I' :: t) res i (by decide) hi (by simpa [repRun] using h0) (by simp [leadsWith]) (by omega) (by norm_num),
      scanStep_consume r ['I', 'V'] 4 0 i res ('I' :: 'I' :: t) res i (by decide) hi (by simpa [repRun] using h0) (leadsWith_pair_false (by simp [hV])) (by omega) (by norm_num),
      scanStep_consume r ['I'] 1 2 i res (t) (res + 2) (i + 2) (by decide) hi (by simpa [repRun] using h0) (leadsWith_single_false (fun y hy he => hI (he ▸ hy))) (by omega) (by norm_num)]
    simp [unitsPart]
  · -- digit 3: part = ['I', 'I', 'I']
    have hlen' : r.length - i = 3 + t.length := by
      have hx := hlen; simp [unitsPart] at hx; omega
    have h0 : r.drop i = 'I' :: 'I' :: 'I' :: t := by simpa [unitsPart] using hdrop
    rw [scanStep_consume r ['I', 'X'] 9 0 i res ('I' :: 'I' :: 'I' :: t) res i (by decide) hi (by simpa [repRun] using h0) (leadsWith_pair_false (by simp [hX])) (by omega) (by norm_num),
      scanStep_consume r ['V'] 5 0 i res ('I' :: 'I' :: 'I' :: t) res i (by decide) hi (by simpa [repRun] using h0) (by simp [leadsWith]) (by omega) (by norm_num),
      scanStep_consume r ['I', 'V'] 4 0 i res ('I' :: 'I' :: 'I' :: t) res i (by decide) hi (by simpa [repRun] using h0) (leadsWith_pair_false (by simp [hV])) (by omega) (by norm_num),
      scanStep_consume r ['I'] 1 3 i res (t) (res + 3) (i + 3) (by decide) hi (by simpa [repRun] using h0) (leadsWith_single_false (fun y hy he => hI (he ▸ hy))) (by omega) (by norm_num)]
    simp [unitsPart]
  · -- digit 4: part = ['I', 'V']
    have hlen' : r.length - i = 2 + t.length := by
      have hx := hlen; simp [unitsPart] at hx; omega
    have h0 : r.drop i = 'I' :: 'V' :: t := by simpa [unitsPart] using hdrop
    have h2 : r.drop (i + 2) = t := by
      rw [← List.drop_drop, h0]
      rfl
    rw [scanStep_consume r ['I', 'X'] 9 0 i res ('I' :: 'V' :: t) res i (by decide) hi (by simpa [repRun] using h0) (leadsWith_pair_false (by simp [hX])) (by omega) (by norm_num),
      scanStep_consume r ['V'] 5 0 i res ('I' :: 'V' :: t) res i (by decide) hi (by simpa [repRun] using h0) (by simp [leadsWith]) (by omega) (by norm_num),
      scanStep_consume r ['I', 'V'] 4 1 i res (t) (res + 4) (i + 2) (by decide) hi (by simpa [repRun] using h0) (leadsWith_pair_false (by simp [hV])) (by omega) (by norm_num),
      scanStep_consume r ['I'] 1 0 (i + 2) (res + 4) (t) (res + 4) (i + 2) (by decide) (by omega) (by simpa [repRun] using h2) (leadsWith_single_false (fun y hy he => hI (he ▸ hy))) (by omega) (by norm_num)]
    simp [unitsPart]
  · -- digit 5: part = ['V']
    have hlen' : r.length - i = 1 + t.length := by
      have hx := hlen; simp [unitsPart] at hx; omega
    have h0 : r.drop i = 'V' :: t := by simpa [unitsPart] using hdrop
    have h1 : r.drop (i + 1) = t := by
      rw [← List.drop_drop, h0]
      rfl
    rw [scanStep_consume r ['I', 'X'] 9 0 i res ('V' :: t) res i (by decide) hi (by simpa [repRun] using h0) (leadsWith_pair_false (by simp [hX])) (by omega) (by norm_num),
      scanStep_consume r ['V'] 5 1 i res (t) (res + 5) (i + 1) (by decide) hi (by simpa [repRun] using h0) (leadsWith_single_false (head_ne_of_not_mem hV)) (by omega) (by norm_num),
      scanStep_consume r ['I', 'V'] 4 0 (i + 1) (res + 5) (t) (res + 5) (i + 1) (by decide) (by omega) (by simpa [repRun] using h1) (leadsWith_pair_false (by simp [hV])) (by omega) (by norm_num),
      scanStep_consume r ['I'] 1 0 (i + 1) (res + 5) (t) (res + 5) (i + 1) (by decide) (by omega) (by simpa [repRun] using h1) (leadsWith_single_false (fun y hy he => hI (he ▸ hy))) (by omega) (by norm_num)]
    simp [unitsPart]
  · -- digit 6: part = ['V', 'I']
    have hlen' : r.length - i = 2 + t.length := by
      have hx := hlen; simp [unitsPart] at hx; omega
    have h0 : r.drop i = 'V' :: 'I' :: t := by simpa [unitsPart] using hdrop
    have h1 : r.drop (i + 1) = 'I' :: t := by
      rw [← List.drop_drop, h0]
      rfl
    rw [scanStep_consume r ['I', 'X'] 9 0 i res ('V' :: 'I' :: t) res i (by decide) hi (by simpa [repRun] using h0) (leadsWith_pair_false (by simp [hX])) (by omega) (by norm_num),
      scanStep_consume r ['V'] 5 1 i res ('I' :: t) (res + 5) (i + 1) (by decide) hi (by simpa [repRun] using h0) (by simp [leadsWith]) (by omega) (by norm_num),
      scanStep_consume r ['I', 'V'] 4 0 (i + 1) (res + 5) ('I' :: t) (res + 5) (i + 1) (by decide) (by omega) (by simpa [repRun] using h1) (leadsWith_pair_false (by simp [hV])) (by omega) (by norm_num),
      scanStep_consume r ['I'] 1 1 (i + 1) (res + 5) (t) (res + 6) (i + 2) (by decide) (by omega) (by simpa [repRun] using h1) (leadsWith_single_false (fun y hy he => hI (he ▸ hy))) (by omega) (by norm_num)]
    simp [unitsPart]
  · -- digit 7: part = ['V', 'I', 'I']
    have hlen' : r.length - i = 3 + t.length := by
      have hx := hlen; simp [unitsPart] at hx; omega
    have h0 : r.drop i = 'V' :: 'I' :: 'I' :: t := by simpa [unitsPart] using hdrop
    have h1 : r.drop (i + 1) = 'I' :: 'I' :: t := by
      rw [← List.drop_drop, h0]
      rfl
    rw [scanStep_consume r ['I', 'X'] 9 0 i res ('V' :: 'I' :: 'I' :: t) res i (by decide) hi (by simpa [repRun] using h0) (leadsWith_pair_false (by simp [hX])) (by omega) (by norm_num),
      scanStep_consume r ['V'] 5 1 i res ('I' :: 'I' :: t) (res + 5) (i + 1) (by decide) hi (by simpa [repRun] using h0) (by simp [leadsWith]) (by omega) (by norm_num),
      scanStep_consume r ['I', 'V'] 4 0 (i + 1) (res + 5) ('I' :: 'I' :: t) (res + 5) (i + 1) (by decide) (by omega) (by simpa [repRun] using h1) (leadsWith_pair_false (by simp [hV])) (by omega) (by norm_num),
      scanStep_consume r ['I'] 1 2 (i + 1) (res + 5) (t) (res + 7) (i + 3) (by decide) (by omega) (by simpa [repRun] using h1) (leadsWith_single_false (fun y hy he => hI (he ▸ hy))) (by omega) (by norm_num)]
    simp [unitsPart]
  · -- digit 8: part = ['V', 'I', 'I', 'I']
    have hlen' : r.length - i = 4 + t.length := by
      have hx := hlen; simp [unitsPart] at hx; omega
    have h0 : r.drop i = 'V' :: 'I' :: 'I' :: 'I' :: t := by simpa [unitsPart] using hdrop
    have h1 : r.drop (i + 1) = 'I' :: 'I' :: 'I' :: t := by
      rw [← List.drop_drop, h0]
      rfl
    rw [scanStep_consume r ['I', 'X'] 9 0 i res ('V' :: 'I' :: 'I' :: 'I' :: t) res i (by decide) hi (by simpa [repRun] using h0) (leadsWith_pair_false (by simp [hX])) (by omega) (by norm_num),
      scanStep_consume r ['V'] 5 1 i res ('I' :: 'I' :: 'I' :: t) (res + 5) (i + 1) (by decide) hi (by simpa [repRun] using h0) (by simp [leadsWith]) (by omega) (by norm_num),
      scanStep_consume r ['I', 'V'] 4 0 (i + 1) (res + 5) ('I' :: 'I' :: 'I' :: t) (res + 5) (i + 1) (by decide) (by omega) (by simpa [repRun] using h1) (leadsWith_pair_false (by simp [hV])) (by omega) (by norm_num),
      scanStep_consume r ['I'] 1 3 (i + 1) (res + 5) (t) (res + 8) (i + 4) (by decide) (by omega) (by simpa [repRun] using h1) (leadsWith_single_false (fun y hy he => hI (he ▸ hy))) (by omega) (by norm_num)]
    simp [unitsPart]
  · -- digit 9: part = ['I', 'X']
    have hlen' : r.length - i = 2 + t.length := by
      have hx := hlen; simp [unitsPart] at hx; omega
    have h0 : r.drop i = 'I' :: 'X' :: t := by simpa [unitsPart] using hdrop
    have h2 : r.drop (i + 2) = t := by
      rw [← List.drop_drop, h0]
      rfl
    rw [scanStep_consume r ['I', 'X'] 9 1 i res (t) (res + 9) (i + 2) (by decide) hi (by simpa [repRun] using h0) (leadsWith_pair_false (by simp [hX])) (by omega) (by norm_num),
      scanStep_consume r ['V'] 5 0 (i + 2) (res + 9) (t) (res + 9) (i + 2) (by decide) (by omega) (by simpa [repRun] using h2) (leadsWith_single_false (head_ne_of_not_mem hV)) (by omega) (by norm_num),
      scanStep_consume r ['I', 'V'] 4 0 (i + 2) (res + 9) (t) (res + 9) (i + 2) (by decide) (by omega) (by simpa [repRun] using h2) (leadsWith_pair_false (by simp [hV])) (by omega) (by norm_num),
      scanStep_consume r ['I'] 1 0 (i + 2) (res + 9) (t) (res + 9) (i + 2) (by decide) (by omega) (by simpa [repRun] using h2) (leadsWith_single_false (fun y hy he => hI (he ▸ hy))) (by omega) (by norm_num)]
    simp [unitsPart]


/-! ## The canonical numeral passes validation -/

theorem head?_append_ne {x : Char} {A B : List Char} (hA : A.head? ≠ some x)
    (hB : B.head? ≠ some x) : (A ++ B).head? ≠ some x := by
  cases A with
  | nil => simpa using hB
  | cons a A' => simpa using hA

theorem thousands_chars {x : Char} {a : Nat} (h : x ∈ repRun ['M'] a) : x = 'M' := by
  have := mem_repRun h
  simpa using this

theorem hPart_not_mem : ∀ b, b < 10 → 'I' ∉ hundredsPart b ∧ 'V' ∉ hundredsPart b ∧
    'X' ∉ hundredsPart b ∧ 'L' ∉ hundredsPart b ∧ 'S' ∉ hundredsPart b ∧
    '·' ∉ hundredsPart b := by decide

theorem tPart_not_mem : ∀ c, c < 10 → 'I' ∉ tensPart c ∧ 'V' ∉ tensPart c ∧
    'M' ∉ tensPart c ∧ 'D' ∉ tensPart c ∧ 'S' ∉ tensPart c ∧
    '·' ∉ tensPart c := by decide

theorem uPart_not_mem : ∀ d, d < 10 → 'M' ∉ unitsPart d ∧ 'D' ∉ unitsPart d ∧
    'C' ∉ unitsPart d ∧ 'L' ∉ unitsPart d ∧ 'S' ∉ unitsPart d ∧
    '·' ∉ unitsPart d := by decide

theorem hPart_head : ∀ b, b < 10 → (hundredsPart b).head? ≠ some 'M' := by decide

theorem tPart_head : ∀ c, c < 10 → (tensPart c).head? ≠ some 'M' ∧
    (tensPart c).head? ≠ some 'C' := by decide

theorem uPart_head : ∀ d, d < 10 → (unitsPart d).head? ≠ some 'M' ∧
    (unitsPart d).head? ≠ some 'C' ∧ (unitsPart d).head? ≠ some 'X' := by decide

theorem hPart_upper : ∀ b, b < 10 → ∀ x ∈ hundredsPart b, x.toUpper = x := by decide

theorem tPart_upper : ∀ c, c < 10 → ∀ x ∈ tensPart c, x.toUpper = x := by decide

theorem uPart_upper : ∀ d, d < 10 → ∀ x ∈ unitsPart d, x.toUpper = x := by decide

theorem noIIII : ∀ d, d < 10 → hasSubstr ['I', 'I', 'I', 'I'] (unitsPart d) = false := by
  decide

theorem noVV : ∀ d, d < 10 → hasSubstr ['V', 'V'] (unitsPart d) = false := by decide

theorem noXXXX : ∀ c, c < 10 → ∀ d, d < 10 →
    hasSubstr ['X', 'X', 'X', 'X'] (tensPart c ++ unitsPart d) = false := by decide

theorem noLL : ∀ c, c < 10 → ∀ d, d < 10 →
    hasSubstr ['L', 'L'] (tensPart c ++ unitsPart d) = false := by decide

theorem noCCCC : ∀ b, b < 10 → ∀ c, c < 10 →
    hasSubstr ['C', 'C', 'C', 'C'] (hundredsPart b ++ tensPart c) = false := by decide

theorem noDD : ∀ b, b < 10 → hasSubstr ['D', 'D'] (hundredsPart b) = false := by decide

theorem noMMMM : ∀ a, a < 4 → ∀ b, b < 10 →
    hasSubstr ['M', 'M', 'M', 'M'] (repRun ['M'] a ++ hundredsPart b) = false := by decide

/-- Case split for membership in the canonical numeral. -/
theorem mem_canonical {n : Nat} {x : Char} (h : x ∈ canonical n) :
    x = 'M' ∨ x ∈ hundredsPart (n / 100 % 10) ∨ x ∈ tensPart (n / 10 % 10) ∨
      x ∈ unitsPart (n % 10) := by
  simp only [canonical, List.mem_append] at h
  rcases h with ((h | h) | h) | h
  · exact Or.inl (thousands_chars h)
  · exact Or.inr (Or.inl h)
  · exact Or.inr (Or.inr (Or.inl h))
  · exact Or.inr (Or.inr (Or.inr h))

theorem canonical_upper (n : Nat) : pyUpper (canonical n) = canonical n := by
  apply pyUpper_eq_self
  intro c hc
  rcases mem_canonical hc with h | h | h | h
  · subst h; decide
  · exact hPart_upper _ (by omega) c h
  · exact tPart_upper _ (by omega) c h
  · exact uPart_upper _ (by omega) c h

theorem S_not_mem_canonical (n : Nat) : 'S' ∉ canonical n := by
  intro h
  rcases mem_canonical h with h | h | h | h
  · simp at h
  · exact (hPart_not_mem _ (by omega)).2.2.2.2.1 h
  · exact (tPart_not_mem _ (by omega)).2.2.2.2.1 h
  · exact (uPart_not_mem _ (by omega)).2.2.2.2.1 h

theorem dot_not_mem_canonical (n : Nat) : '·' ∉ canonical n := by
  intro h
  rcases mem_canonical h with h | h | h | h
  · simp at h
  · exact (hPart_not_mem _ (by omega)).2.2.2.2.2 h
  · exact (tPart_not_mem _ (by omega)).2.2.2.2.2 h
  · exact (uPart_not_mem _ (by omega)).2.2.2.2.2 h

theorem canonical_no_seq (n : Nat) (hn : n ≤ 3999) :
    ∀ seq ∈ invalid_sequences, hasSubstr seq (canonical n) = false := by
  have hIassoc : canonical n = repRun ['M'] (n / 1000) ++ (hundredsPart (n / 100 % 10) ++
      (tensPart (n / 10 % 10) ++ unitsPart (n % 10))) := by
    simp [canonical, List.append_assoc]
  have hMassoc : canonical n = (repRun ['M'] (n / 1000) ++ hundredsPart (n / 100 % 10)) ++
      (tensPart (n / 10 % 10) ++ unitsPart (n % 10)) := by
    simp [canonical, List.append_assoc]
  have hCassoc : canonical n = repRun ['M'] (n / 1000) ++ ((hundredsPart (n / 100 % 10) ++
      tensPart (n / 10 % 10)) ++ unitsPart (n % 10)) := by
    simp [canonical, List.append_assoc]
  have hMnotA : ∀ x : Char, x ≠ 'M' → x ∉ repRun ['M'] (n / 1000) := by
    intro x hx hmem
    exact hx (thousands_chars hmem)
  have hIIII : hasSubstr ['I', 'I', 'I', 'I'] (canonical n) = false := by
    rw [Bool.eq_false_iff]
    intro hc
    rw [hIassoc] at hc
    have h1 := hasSubstr_append_right hc (hMnotA 'I' (by decide))
    have h2 := hasSubstr_append_right h1 (hPart_not_mem _ (by omega)).1
    have h3 := hasSubstr_append_right h2 (tPart_not_mem _ (by omega)).1
    rw [noIIII _ (by omega)] at h3
    exact absurd h3 (by simp)
  have hVV : hasSubstr ['V', 'V'] (canonical n) = false := by
    rw [Bool.eq_false_iff]
    intro hc
    rw [hIassoc] at hc
    have h1 := hasSubstr_append_right hc (hMnotA 'V' (by decide))
    have h2 := hasSubstr_append_right h1 (hPart_not_mem _ (by omega)).2.1
    have h3 := hasSubstr_append_right h2 (tPart_not_mem _ (by omega)).2.1
    rw [noVV _ (by omega)] at h3
    exact absurd h3 (by simp)
  have hXXXX : hasSubstr ['X', 'X', 'X', 'X'] (canonical n) = false := by
    rw [Bool.eq_false_iff]
    intro hc
    rw [hIassoc] at hc
    have h1 := hasSubstr_append_right hc (hMnotA 'X' (by decide))
    have h2 := hasSubstr_append_right h1 (hPart_not_mem _ (by omega)).2.2.1
    rw [noXXXX _ (by omega) _ (by omega)] at h2
    exact absurd h2 (by simp)
  have hLL : hasSubstr ['L', 'L'] (canonical n) = false := by
    rw [Bool.eq_false_iff]
    intro hc
    rw [hIassoc] at hc
    have h1 := hasSubstr_append_right hc (hMnotA 'L' (by decide))
    have h2 := hasSubstr_append_right h1 (hPart_not_mem _ (by omega)).2.2.2.1
    rw [noLL _ (by omega) _ (by omega)] at h2
    exact absurd h2 (by simp)
  have hCCCC : hasSubstr ['C', 'C', 'C', 'C'] (canonical n) = false := by
    rw [Bool.eq_false_iff]
    intro hc
    rw [hCassoc] at hc
    have h1 := hasSubstr_append_right hc (hMnotA 'C' (by decide))
    have h2 := hasSubstr_append_left h1 (by simp) ?_
    · rw [noCCCC _ (by omega) _ (by omega)] at h2
      exact absurd h2 (by simp)
    · intro x hx
      have hxC : x = 'C' := by simpa using hx
      subst hxC
      exact (uPart_not_mem _ (by omega)).2.2.1
  have hDD : hasSubstr ['D', 'D'] (canonical n) = false := by
    rw [Bool.eq_false_iff]
    intro hc
    rw [hIassoc] at hc
    have h1 := hasSubstr_append_right hc (hMnotA 'D' (by decide))
    have h2 := hasSubstr_append_left h1 (by simp) ?_
    · rw [noDD _ (by omega)] at h2
      exact absurd h2 (by simp)
    · intro x hx
      have hxD : x = 'D' := by simpa using hx
      subst hxD
      intro hmem
      rcases List.mem_append.mp hmem with h | h
      · exact (tPart_not_mem _ (by omega)).2.2.2.1 h
      · exact (uPart_not_mem _ (by omega)).2.1 h
  have hMMMM : hasSubstr ['M', 'M', 'M', 'M'] (canonical n) = false := by
    rw [Bool.eq_false_iff]
    intro hc
    rw [hMassoc] at hc
    have h1 := hasSubstr_append_left hc (by simp) ?_
    · rw [noMMMM _ (by omega) _ (by omega)] at h1
      exact absurd h1 (by simp)
    · intro x hx
      have hxM : x = 'M' := by simpa using hx
      subst hxM
      intro hmem
      rcases List.mem_append.mp hmem with h | h
      · exact (tPart_not_mem _ (by omega)).2.2.1 h
      · exact (uPart_not_mem _ (by omega)).1 h
  intro seq hseq
  fin_cases hseq
  · exact hIIII
  · exact hVV
  · exact hXXXX
  · exact hLL
  · exact hCCCC
  · exact hDD
  · exact hMMMM

theorem valida_canonical (n : Nat) (hn : n ≤ 3999) :
    _valida_romano (canonical n) = none := by
  have hfind : invalid_sequences.find? (fun seq => hasSubstr seq (canonical n)) = none := by
    apply List.find?_eq_none.mpr
    intro seq hseq
    rw [canonical_no_seq n hn seq hseq]
    simp
  have hany : _valores_fracciones.any (fun f => hasSubstr f.1 (canonical n)) = false := by
    rw [Bool.eq_false_iff]
    intro hc
    rw [List.any_eq_true] at hc
    obtain ⟨f, hf, hsub⟩ := hc
    fin_cases hf
    · exact absurd (mem_of_hasSubstr_cons hsub) (S_not_mem_canonical n)
    · exact absurd (mem_of_hasSubstr_cons hsub) (dot_not_mem_canonical n)
    · exact absurd (mem_of_hasSubstr_cons hsub) (dot_not_mem_canonical n)
    · exact absurd (mem_of_hasSubstr_cons hsub) (dot_not_mem_canonical n)
    · exact absurd (mem_of_hasSubstr_cons hsub) (dot_not_mem_canonical n)
    · exact absurd (mem_of_hasSubstr_cons hsub) (dot_not_mem_canonical n)
  unfold _valida_romano
  simp only [canonical_upper, hfind, hany]
  simp

theorem scan_canonical (n : Nat) :
    List.foldl (scanStep (canonical n)) (0, 0) _valores_romanos
      = (n, (canonical n).length) := by
  set r := canonical n with hr
  set A := repRun ['M'] (n / 1000) with hA
  set B := hundredsPart (n / 100 % 10) with hB
  set T := tensPart (n / 10 % 10) with hT
  set U := unitsPart (n % 10) with hU
  have hassoc : r = A ++ (B ++ (T ++ U)) := by
    simp [hr, hA, hB, hT, hU, canonical, List.append_assoc]
  have hassoc2 : r = (A ++ B) ++ (T ++ U) := by
    simp [hr, hA, hB, hT, hU, canonical, List.append_assoc]
  have hassoc3 : r = ((A ++ B) ++ T) ++ U := by
    simp [hr, hA, hB, hT, hU, canonical, List.append_assoc]
  have hlen : r.length = A.length + B.length + T.length + U.length := by
    rw [hassoc]; simp; omega
  have hd0 : r.drop 0 = A ++ (B ++ (T ++ U)) := by simpa using hassoc
  have hdA : r.drop A.length = B ++ (T ++ U) := by rw [hassoc, List.drop_left]
  have hdAB : r.drop (A.length + B.length) = T ++ U := by
    rw [hassoc2]
    exact List.drop_left' (by simp)
  have hdABT : r.drop (A.length + B.length + T.length) = U := by
    rw [hassoc3]
    exact List.drop_left' (by simp; omega)
  have hbB : n / 100 % 10 < 10 := by omega
  have hbT : n / 10 % 10 < 10 := by omega
  have hbU : n % 10 < 10 := by omega
  have hMnotTU : 'M' ∉ T ++ U := by
    intro h
    rcases List.mem_append.mp h with h | h
    · exact (tPart_not_mem _ hbT).2.2.1 (hT ▸ h)
    · exact (uPart_not_mem _ hbU).1 (hU ▸ h)
  have hDnotTU : 'D' ∉ T ++ U := by
    intro h
    rcases List.mem_append.mp h with h | h
    · exact (tPart_not_mem _ hbT).2.2.2.1 (hT ▸ h)
    · exact (uPart_not_mem _ hbU).2.1 (hU ▸ h)
  have hheadTU : (T ++ U).head? ≠ some 'C' :=
    head?_append_ne (hT ▸ (tPart_head _ hbT).2) (hU ▸ (uPart_head _ hbU).2.1)
  have hheadBTU : (B ++ (T ++ U)).head? ≠ some 'M' :=
    head?_append_ne (hB ▸ hPart_head _ hbB)
      (head?_append_ne (hT ▸ (tPart_head _ hbT).1) (hU ▸ (uPart_head _ hbU).1))
  have hCnotU : 'C' ∉ U := fun h => (uPart_not_mem _ hbU).2.2.1 (hU ▸ h)
  have hLnotU : 'L' ∉ U := fun h => (uPart_not_mem _ hbU).2.2.2.1 (hU ▸ h)
  have hheadU : U.head? ≠ some 'X' := hU ▸ (uPart_head _ hbU).2.2
  rw [show _valores_romanos = [(['M'], 1000)] ++
      ([(['C', 'M'], 900), (['D'], 500), (['C', 'D'], 400), (['C'], 100)] ++
        ([(['X', 'C'], 90), (['L'], 50), (['X', 'L'], 40), (['X'], 10)] ++
          [(['I', 'X'], 9), (['V'], 5), (['I', 'V'], 4), (['I'], 1)])) from rfl,
    List.foldl_append, List.foldl_append, List.foldl_append]
  rw [show List.foldl (scanStep r) (0, 0) [(['M'], 1000)] = scanStep r (0, 0) (['M'], 1000)
      from rfl]
  rw [scanStep_consume r ['M'] 1000 (n / 1000) 0 0 (B ++ (T ++ U)) (n / 1000 * 1000)
    A.length (by decide) (Nat.zero_le _) (by rw [List.drop_zero, hassoc, hA])
    (leadsWith_single_false (fun y hy he => hheadBTU (he ▸ hy)))
    (by omega) (by simp [hA, length_repRun])]
  rw [scanHundreds r (T ++ U) A.length (n / 1000 * 1000) (n / 100 % 10) hbB
    (by omega) (by rw [hdA, hB]) hMnotTU hDnotTU hheadTU]
  rw [← hB]
  rw [scanTens r U (A.length + B.length) (n / 1000 * 1000 + 100 * (n / 100 % 10))
    (n / 10 % 10) hbT (by omega) (by rw [hdAB, hT]) hCnotU hLnotU hheadU]
  rw [← hT]
  rw [scanUnits r [] (A.length + B.length + T.length)
    (n / 1000 * 1000 + 100 * (n / 100 % 10) + 10 * (n / 10 % 10)) (n % 10) hbU
    (by omega) (by rw [hdABT, hU, List.append_nil]) (by simp) (by simp) (by simp)]
  rw [← hU, Prod.mk.injEq]
  constructor
  · omega
  · omega

theorem endsWith_false_of_not_mem {x : Char} {g r : List Char} (hx : x ∉ r) :
    endsWith r (x :: g) = false := by
  rw [Bool.eq_false_iff]
  intro hc
  unfold endsWith at hc
  obtain ⟨t', ht, -⟩ := leadsWith_cons_ex hc
  have hxm : x ∈ r.drop (r.length - (x :: g).length) := by
    rw [ht]; exact List.mem_cons_self _ _
  exact hx (List.mem_of_mem_drop hxm)

theorem frac_none (n : Nat) :
    _valores_fracciones.find? (fun p => endsWith (canonical n) p.1) = none := by
  apply List.find?_eq_none.mpr
  intro p hp
  fin_cases hp
  · rw [endsWith_false_of_not_mem (S_not_mem_canonical n)]; simp
  · rw [endsWith_false_of_not_mem (dot_not_mem_canonical n)]; simp
  · rw [endsWith_false_of_not_mem (dot_not_mem_canonical n)]; simp
  · rw [endsWith_false_of_not_mem (dot_not_mem_canonical n)]; simp
  · rw [endsWith_false_of_not_mem (dot_not_mem_canonical n)]; simp
  · rw [endsWith_false_of_not_mem (dot_not_mem_canonical n)]; simp

theorem hPart_nil : ∀ b, b < 10 → hundredsPart b = [] → b = 0 := by decide

theorem tPart_nil : ∀ c, c < 10 → tensPart c = [] → c = 0 := by decide

theorem uPart_nil : ∀ d, d < 10 → unitsPart d = [] → d = 0 := by decide

theorem canonical_ne_nil (n : Nat) (h1 : 1 ≤ n) : canonical n ≠ [] := by
  intro hnil
  rw [canonical] at hnil
  simp only [List.append_eq_nil] at hnil
  obtain ⟨⟨⟨hm, hh⟩, ht⟩, hu⟩ := hnil
  have hm0 : n / 1000 = 0 := by
    by_contra hne
    obtain ⟨c, hc⟩ := Nat.exists_eq_succ_of_ne_zero hne
    rw [hc] at hm
    simp [repRun] at hm
  have hh0 := hPart_nil _ (by omega) hh
  have ht0 := tPart_nil _ (by omega) ht
  have hu0 := uPart_nil _ (by omega) hu
  omega

theorem a_decimal_canonical (n : Nat) (h1 : 1 ≤ n) (h2 : n ≤ 3999) :
    a_decimal (canonical n) = .ok (n : ℚ) := by
  have hempty : (canonical n).isEmpty = false := by
    cases hcn : canonical n with
    | nil => exact absurd hcn (canonical_ne_nil n h1)
    | cons a l => rfl
  simp only [a_decimal, hempty, Bool.false_eq_true, if_false, canonical_upper,
    valida_canonical n h2, scan_canonical, frac_none]
  simp

theorem a_romano_nat (n : Nat) (h1 : 1 ≤ n) (h2 : n ≤ 3999) :
    a_romano (n : ℚ) = .ok (canonical n) := by
  have hrange : ¬((n : ℚ) < 0 ∨ (7999 : ℚ)/2 < (n : ℚ)) := by
    push_neg
    refine ⟨Nat.cast_nonneg n, ?_⟩
    rw [le_div_iff₀ (by norm_num : (0 : ℚ) < 2)]
    have : (n : ℚ) ≤ 3999 := by exact_mod_cast h2
    nlinarith
  have hip : ((n : ℚ).num.toNat / (n : ℚ).den) = n := by
    simp
  rw [a_romano, if_neg hrange]
  congr 1
  rw [romanoBody]
  simp only [hip]
  rw [if_pos (by omega : 0 < n), greedyAll_canonical]
  simp only [sub_self, lt_irrefl, if_false]
  have hempty : (canonical n).isEmpty = false := by
    cases hcn : canonical n with
    | nil => exact absurd hcn (canonical_ne_nil n h1)
    | cons a l => rfl
  simp [hempty]

/-! ## Claim theorems -/

/-- C1: for every integer n in [1, 3999], converting n to a Roman numeral with
`NumRom.a_romano` and converting the result back with `NumRom.a_decimal`
returns exactly n, and raises no error. -/
theorem C1_roundtrip (n : Nat) (h1 : 1 ≤ n) (h2 : n ≤ 3999) :
    (NumRom.a_romano (n : ℚ)).bind NumRom.a_decimal = .ok (n : ℚ) := by
  rw [a_romano_nat n h1 h2]
  simpa [Except.bind] using a_decimal_canonical n h1 h2

/-- Witness for C1 at n = 1994. -/
theorem C1_roundtrip_witness :
    (1 ≤ 1994 ∧ 1994 ≤ 3999) ∧
      (NumRom.a_romano ((1994 : Nat) : ℚ)).bind NumRom.a_decimal = .ok ((1994 : Nat) : ℚ) :=
  ⟨⟨by norm_num, by norm_num⟩, C1_roundtrip 1994 (by norm_num) (by norm_num)⟩

deriving instance DecidableEq for Except

set_option maxRecDepth 10000 in
/-- C7: `a_romano` returns "Nihil" on 0, "IV" on 4, "IX" on 9, "XL" on 40 and
"MCMXCIV" on 1994, the spec-listed points of standard subtractive generation. -/
theorem C7_known_points :
    NumRom.a_romano (0 : ℚ) = .ok ['N', 'i', 'h', 'i', 'l'] ∧
    NumRom.a_romano (4 : ℚ) = .ok ['I', 'V'] ∧
    NumRom.a_romano (9 : ℚ) = .ok ['I', 'X'] ∧
    NumRom.a_romano (40 : ℚ) = .ok ['X', 'L'] ∧
    NumRom.a_romano (1994 : ℚ) = .ok ['M', 'C', 'M', 'X', 'C', 'I', 'V'] := by
  with_unfolding_all decide

set_option maxRecDepth 80000 in
/-- C6: `a_romano 3999.5` succeeds (returning MMMCMXCIX with the semis glyph),
while `a_romano 3999.51` and every input below 0 or above 3999.5 raise the
out-of-range error. -/
theorem C6_range :
    NumRom.a_romano ((7999 : ℚ)/2) = .ok ['M', 'M', 'M', 'C', 'M', 'X', 'C', 'I', 'X', 'S'] ∧
    NumRom.a_romano ((399951 : ℚ)/100) = .error .outOfRange ∧
    ∀ q : ℚ, (q < 0 ∨ (7999 : ℚ)/2 < q) → NumRom.a_romano q = .error .outOfRange := by
  refine ⟨by with_unfolding_all decide, by with_unfolding_all decide, ?_⟩
  intro q hq
  rw [NumRom.a_romano, if_pos hq]

/-- Witness for C6's universally quantified part, at q = -1 and q = 4000. -/
theorem C6_range_witness :
    NumRom.a_romano (-1 : ℚ) = .error .outOfRange ∧
    NumRom.a_romano (4000 : ℚ) = .error .outOfRange :=
  ⟨C6_range.2.2 (-1) (Or.inl (by norm_num)),
   C6_range.2.2 4000 (Or.inr (by norm_num))⟩

set_option maxRecDepth 20000 in
/-- C2 (code evaluation): `a_decimal "XII"` is 12, and a fraction glyph suffix
parses only for the glyphs `S` and `·`: the suffix loop matches `·` before any
multi-dot glyph, so `"XII···"` leaves two characters unconsumed and raises the
invalid-numeral error rather than returning 12.25. -/
theorem C2_fraction_parse :
    NumRom.a_decimal ['X', 'I', 'I'] = .ok 12 ∧
    NumRom.a_decimal ['X', 'I', 'I', '·'] = .ok (12 + 1/12 : ℚ) ∧
    NumRom.a_decimal ['X', 'I', 'I', 'S'] = .ok (12 + 6/12 : ℚ) ∧
    NumRom.a_decimal ['X', 'I', 'I', '·', '·', '·'] =
      .error (.invalidNumeral ['X', 'I', 'I', '·', '·', '·']) := by
  with_unfolding_all decide

theorem foldl_pick_mem (t : ℚ) :
    ∀ (l : List (List Char × ℚ)) (x : List Char × ℚ),
      l.foldl (fun best p => if |p.2 - t| < |best.2 - t| then p else best) x ∈ x :: l := by
  intro l
  induction l with
  | nil => intro x; simp
  | cons p l ih =>
    intro x
    simp only [List.foldl_cons]
    rcases List.mem_cons.mp (ih (if |p.2 - t| < |x.2 - t| then p else x)) with h | h
    · rw [h]
      split
      · exact List.mem_cons_of_mem x (List.mem_cons_self p l)
      · exact List.mem_cons_self x (p :: l)
    · exact List.mem_cons_of_mem x (List.mem_cons_of_mem p h)

theorem pickClosest_mem (t : ℚ) :
    pickClosest _valores_fracciones t ∈ _valores_fracciones := by
  rw [show _valores_fracciones = (['S'], (6 : ℚ)/12) ::
    [(['·'], (1 : ℚ)/12), (['·', '·'], (2 : ℚ)/12), (['·', '·', '·'], (3 : ℚ)/12),
     (['·', '·', '·', '·'], (4 : ℚ)/12), (['·', '·', '·', '·', '·'], (5 : ℚ)/12)] from rfl,
    pickClosest]
  exact foldl_pick_mem t _ _

/-- When the fractional part is positive, the generated numeral ends in a
fraction glyph character. -/
theorem romanoBody_frac_last (q : ℚ)
    (hfp : 0 < q - ((q.num.toNat / q.den : Nat) : ℚ)) :
    (romanoBody q).getLast? = some 'S' ∨ (romanoBody q).getLast? = some '·' := by
  rw [romanoBody]
  simp only [if_pos hfp]
  set c := pickClosest _valores_fracciones (q - ((q.num.toNat / q.den : Nat) : ℚ)) with hc
  have hmem : c ∈ _valores_fracciones := hc ▸ pickClosest_mem _
  set res : List Char :=
    if 0 < q.num.toNat / q.den then (greedyAll (q.num.toNat / q.den)).1 else [] with hres
  simp only [_valores_fracciones, List.mem_cons, List.not_mem_nil, or_false] at hmem
  have hval : (1 : ℚ)/100 < c.2 := by
    rcases hmem with h | h | h | h | h | h <;> rw [h] <;> norm_num
  have hglyph : c.1 ≠ [] := by
    rcases hmem with h | h | h | h | h | h <;> rw [h] <;> simp
  have hlast : c.1.getLast? = some 'S' ∨ c.1.getLast? = some '·' := by
    rcases hmem with h | h | h | h | h | h <;> rw [h] <;> simp
  rw [if_pos hval]
  rw [if_neg (by
    rw [List.isEmpty_iff, List.append_eq_nil]
    exact fun hand => hglyph hand.2)]
  rw [List.getLast?_append_of_ne_nil _ hglyph]
  exact hlast

set_option maxRecDepth 20000 in
/-- C9: the string "IXI" is not in canonical descending order and is never
produced by `a_romano`, yet the multi-pass greedy scan of `a_decimal` consumes
it fully and returns 10 (IX then I). -/
theorem C9_malformed_accepted :
    (∀ q : ℚ, NumRom.a_romano q ≠ .ok ['I', 'X', 'I']) ∧
    NumRom.a_decimal ['I', 'X', 'I'] = .ok 10 := by
  constructor
  · intro q h
    by_cases hr : q < 0 ∨ (7999 : ℚ)/2 < q
    · rw [NumRom.a_romano, if_pos hr] at h
      simp at h
    · rw [NumRom.a_romano, if_neg hr] at h
      rw [Except.ok.injEq] at h
      push_neg at hr
      obtain ⟨hq0, hq1⟩ := hr
      by_cases hfp : 0 < q - ((q.num.toNat / q.den : Nat) : ℚ)
      · rcases romanoBody_frac_last q hfp with hl | hl <;> rw [h] at hl <;> simp at hl
      · have hnum : 0 ≤ q.num := Rat.num_nonneg.mpr hq0
        have hfl : ((q.num.toNat / q.den : Nat) : ℤ) = ⌊q⌋ := by
          rw [Rat.floor_def, Int.natCast_div, Int.toNat_of_nonneg hnum]
        have hle : ((q.num.toNat / q.den : Nat) : ℚ) ≤ q := by
          have h2 := Int.floor_le q
          rw [← hfl] at h2
          exact_mod_cast h2
        have hq : q = ((q.num.toNat / q.den : Nat) : ℚ) := by
          have h3 : q - ((q.num.toNat / q.den : Nat) : ℚ) ≤ 0 := not_lt.mp hfp
          linarith
        set ip := q.num.toNat / q.den with hip
        have hip3999 : ip ≤ 3999 := by
          have h4 : ((ip : Nat) : ℚ) ≤ 7999/2 := hq ▸ hq1
          rw [le_div_iff₀ (by norm_num : (0 : ℚ) < 2)] at h4
          have h6 : ((ip * 2 : Nat) : ℚ) ≤ ((7999 : Nat) : ℚ) := by push_cast; linarith
          have h7 : ip * 2 ≤ 7999 := by exact_mod_cast h6
          omega
        rw [hq] at h
        by_cases hip0 : ip = 0
        · rw [hip0] at h
          have hz : romanoBody ((0 : Nat) : ℚ) = ['N', 'i', 'h', 'i', 'l'] := by
            with_unfolding_all decide
          rw [hz] at h
          simp at h
        · have h1ip : 1 ≤ ip := Nat.pos_of_ne_zero hip0
          have hra := a_romano_nat ip h1ip hip3999
          have hrb : NumRom.a_romano ((ip : Nat) : ℚ) = .ok (romanoBody ((ip : Nat) : ℚ)) := by
            rw [NumRom.a_romano, if_neg (by push_neg; exact ⟨Nat.cast_nonneg ip, hq ▸ hq1⟩)]
          rw [hrb, Except.ok.injEq] at hra
          rw [hra] at h
          have hd := a_decimal_canonical ip h1ip hip3999
          rw [h] at hd
          have hd10 : NumRom.a_decimal ['I', 'X', 'I'] = .ok (10 : ℚ) := by
            with_unfolding_all decide
          rw [hd10, Except.ok.injEq] at hd
          have hip10 : ip = 10 := by exact_mod_cast hd.symm
          rw [hip10] at h
          have hcan : canonical 10 = ['X'] := by decide
          rw [hcan] at h
          simp at h
  · with_unfolding_all decide

/-! ## Measurement-converter lemmas -/

theorem mem_of_lookup_eq_some {u : String} {c : ℚ} :
    ∀ {l : List (String × ℚ)}, l.lookup u = some c → (u, c) ∈ l := by
  intro l
  induction l with
  | nil => intro h; simp [List.lookup] at h
  | cons p l ih =>
    obtain ⟨k, v⟩ := p
    intro h
    rw [List.lookup] at h
    rcases hk : u == k with hf | ht
    · rw [hk] at h
      exact List.mem_cons_of_mem _ (ih h)
    · rw [hk] at h
      simp only [Option.some.injEq] at h
      have : u = k := eq_of_beq hk
      rw [this, h]
      exact List.mem_cons_self _ _

theorem medidas_pos : ∀ p ∈ MedRom._medidas, 0 < p.2 := by
  intro p hp
  fin_cases hp <;> norm_num

theorem medidas_lower : ∀ p ∈ MedRom._medidas, pyLower p.1 = p.1 := by
  intro p hp
  fin_cases hp <;> decide

theorem lookup_medidas {u : String} {c : ℚ} (h : MedRom._medidas.lookup u = some c) :
    0 < c ∧ pyLower u = u := by
  have hm := mem_of_lookup_eq_some h
  exact ⟨medidas_pos _ hm, medidas_lower _ hm⟩

theorem leadsWith_map (f : Char → Char) {nd h : List Char} (hl : leadsWith nd h = true) :
    leadsWith (nd.map f) (h.map f) = true := by
  induction nd generalizing h with
  | nil => simp [leadsWith]
  | cons a as ih =>
    obtain ⟨t', ht, hlw⟩ := leadsWith_cons_ex hl
    subst ht
    simp only [List.map_cons, leadsWith, Bool.and_eq_true, beq_self_eq_true, true_and]
    exact ih hlw

theorem hasSubstr_map (f : Char → Char) {nd h : List Char}
    (hs : hasSubstr nd h = true) : hasSubstr (nd.map f) (h.map f) = true := by
  induction h with
  | nil =>
    simp only [hasSubstr, List.isEmpty_iff] at hs
    subst hs
    simp [hasSubstr, List.isEmpty]
  | cons c rest ih =>
    simp only [hasSubstr, List.map_cons, Bool.or_eq_true] at hs ⊢
    rcases hs with hs | hs
    · exact Or.inl (by simpa using leadsWith_map f hs)
    · exact Or.inr (ih hs)

/-- C3: for each of the seven forbidden substrings and every string whose
uppercasing contains it, `a_decimal` raises an invalid-sequence error (the
first forbidden substring found, in table order) and returns no value. -/
theorem C3_forbidden_sequences (seq : List Char) (hseq : seq ∈ NumRom.invalid_sequences)
    (s : List Char) (hs : hasSubstr seq (pyUpper s) = true) :
    ∃ seq2 ∈ NumRom.invalid_sequences,
      NumRom.a_decimal s = .error (.invalidSequence seq2) := by
  have hnonempty : s.isEmpty = false := by
    cases hsn : s with
    | nil =>
      subst hsn
      revert hs
      fin_cases hseq <;> decide
    | cons a l => rfl
  have hs2 : hasSubstr seq (pyUpper (pyUpper s)) = true := by
    have hmap := hasSubstr_map Char.toUpper hs
    have hfix : seq.map Char.toUpper = seq := by fin_cases hseq <;> decide
    rw [hfix] at hmap
    exact hmap
  rcases hfind : NumRom.invalid_sequences.find?
      (fun sq => hasSubstr sq (pyUpper (pyUpper s))) with - | seq2
  · exfalso
    rw [List.find?_eq_none] at hfind
    exact absurd hs2 (by simpa using hfind seq hseq)
  · have hmem := List.mem_of_find?_eq_some hfind
    refine ⟨seq2, hmem, ?_⟩
    rw [NumRom.a_decimal, if_neg (by simp [hnonempty])]
    simp only [NumRom._valida_romano, hfind]

/-- Witness for C3: the lowercase string "xiiii" contains "IIII" after
uppercasing and is rejected. -/
theorem C3_forbidden_sequences_witness :
    ∃ seq2 ∈ NumRom.invalid_sequences,
      NumRom.a_decimal ['x', 'i', 'i', 'i', 'i'] = .error (.invalidSequence seq2) :=
  C3_forbidden_sequences ['I', 'I', 'I', 'I'] (by decide) ['x', 'i', 'i', 'i', 'i'] (by decide)

/-- C5: for a unit in the table and non-negative v, `a_unidad_romana` exactly
inverts `a_modernas` (in exact rational arithmetic, `(v * c) / c = v`); in
particular `a_modernas 1 "pes" = 0.296` and
`a_unidad_romana 0.296 "pes" = 1.0`. -/
theorem C5_exact_inverse (u : String) (v c : ℚ)
    (hu : MedRom._medidas.lookup (pyLower u) = some c) (hv : 0 ≤ v) :
    (∃ m, MedRom.a_modernas v u = .ok m ∧ MedRom.a_unidad_romana m u = .ok v) ∧
    MedRom.a_modernas 1 "pes" = .ok (296/1000 : ℚ) ∧
    MedRom.a_unidad_romana (296/1000 : ℚ) "pes" = .ok 1 := by
  obtain ⟨hc, -⟩ := lookup_medidas hu
  have hpes : MedRom._medidas.lookup (pyLower "pes") = some (296/1000 : ℚ) := by
    rw [show pyLower "pes" = "pes" from by decide]
    simp [MedRom._medidas, List.lookup]
  refine ⟨⟨v * c, ?_, ?_⟩, ?_, ?_⟩
  · rw [MedRom.a_modernas]
    simp only [hu]
    rw [if_neg (not_lt.mpr hv)]
  · rw [MedRom.a_unidad_romana]
    simp only [hu]
    rw [if_neg (not_lt.mpr (mul_nonneg hv hc.le))]
    rw [mul_div_cancel_right₀ v hc.ne']
  · rw [MedRom.a_modernas]
    simp only [hpes]
    norm_num
  · rw [MedRom.a_unidad_romana]
    simp only [hpes]
    norm_num

/-- Witness for C5 at u = "pes", v = 2. -/
theorem C5_exact_inverse_witness :
    (∃ m, MedRom.a_modernas 2 "pes" = .ok m ∧ MedRom.a_unidad_romana m "pes" = .ok 2) ∧
    MedRom.a_modernas 1 "pes" = .ok (296/1000 : ℚ) ∧
    MedRom.a_unidad_romana (296/1000 : ℚ) "pes" = .ok 1 :=
  C5_exact_inverse "pes" 2 (296/1000)
    (by rw [show pyLower "pes" = "pes" from by decide]; simp [MedRom._medidas, List.lookup])
    (by norm_num)

/-- C4: for valid units A, B and non-negative v, converting A→B and then B→A
returns exactly v (in exact rational arithmetic), and neither call raises. -/
theorem C4_unit_roundtrip (A B : String) (v cA cB : ℚ)
    (hA : MedRom._medidas.lookup (pyLower A) = some cA)
    (hB : MedRom._medidas.lookup (pyLower B) = some cB) (hv : 0 ≤ v) :
    ∃ w, MedRom.conversion_unidades v A B = .ok w ∧ 0 ≤ w ∧
      MedRom.conversion_unidades w B A = .ok v := by
  obtain ⟨hcA, hlA⟩ := lookup_medidas hA
  obtain ⟨hcB, hlB⟩ := lookup_medidas hB
  have hmodA : ∀ w : ℚ, 0 ≤ w → MedRom.a_modernas w (pyLower A) = .ok (w * cA) := by
    intro w hw0
    rw [MedRom.a_modernas]
    simp only [hlA, hA]
    rw [if_neg (not_lt.mpr hw0)]
  have hmodB : ∀ w : ℚ, 0 ≤ w → MedRom.a_modernas w (pyLower B) = .ok (w * cB) := by
    intro w hw0
    rw [MedRom.a_modernas]
    simp only [hlB, hB]
    rw [if_neg (not_lt.mpr hw0)]
  have hromA : ∀ w : ℚ, 0 ≤ w → MedRom.a_unidad_romana w (pyLower A) = .ok (w / cA) := by
    intro w hw0
    rw [MedRom.a_unidad_romana]
    simp only [hlA, hA]
    rw [if_neg (not_lt.mpr hw0)]
  have hromB : ∀ w : ℚ, 0 ≤ w → MedRom.a_unidad_romana w (pyLower B) = .ok (w / cB) := by
    intro w hw0
    rw [MedRom.a_unidad_romana]
    simp only [hlB, hB]
    rw [if_neg (not_lt.mpr hw0)]
  have hw : 0 ≤ v * cA / cB := by positivity
  refine ⟨v * cA / cB, ?_, hw, ?_⟩
  · rw [MedRom.conversion_unidades]
    rw [if_neg (by simp [hA, hB])]
    rw [hmodA v hv]
    exact hromB (v * cA) (by positivity)
  · rw [MedRom.conversion_unidades]
    rw [if_neg (by simp [hA, hB])]
    rw [hmodB (v * cA / cB) hw]
    show MedRom.a_unidad_romana (v * cA / cB * cB) (pyLower A) = Except.ok v
    rw [hromA (v * cA / cB * cB) (by positivity)]
    congr 1
    field_simp

/-- Witness for C4 at A = "pes", B = "passus", v = 5. -/
theorem C4_unit_roundtrip_witness :
    ∃ w, MedRom.conversion_unidades 5 "pes" "passus" = .ok w ∧ 0 ≤ w ∧
      MedRom.conversion_unidades w "passus" "pes" = .ok 5 :=
  C4_unit_roundtrip "pes" "passus" 5 (296/1000) (148/100)
    (by rw [show pyLower "pes" = "pes" from by decide]; simp [MedRom._medidas, List.lookup])
    (by rw [show pyLower "passus" = "passus" from by decide]; simp [MedRom._medidas, List.lookup])
    (by norm_num)

/-- C10: every Unit Table factor is strictly positive (so the divisions in
`a_unidad_romana` and `conversion_unidades` never divide by zero), and all
three measurement operations return non-negative results for non-negative
inputs. -/
theorem C10_positive_factors :
    (∀ p ∈ MedRom._medidas, 0 < p.2) ∧
    (∀ (v : ℚ) (u : String) (r : ℚ), 0 ≤ v → MedRom.a_modernas v u = .ok r → 0 ≤ r) ∧
    (∀ (v : ℚ) (u : String) (r : ℚ), 0 ≤ v → MedRom.a_unidad_romana v u = .ok r → 0 ≤ r) ∧
    (∀ (v : ℚ) (u u2 : String) (r : ℚ), 0 ≤ v →
      MedRom.conversion_unidades v u u2 = .ok r → 0 ≤ r) := by
  have hmod : ∀ (v : ℚ) (u : String) (r : ℚ), 0 ≤ v →
      MedRom.a_modernas v u = .ok r → 0 ≤ r := by
    intro v u r hv h
    rw [MedRom.a_modernas] at h
    cases hu : MedRom._medidas.lookup (pyLower u) with
    | none => simp [hu] at h
    | some c =>
      simp only [hu] at h
      rw [if_neg (not_lt.mpr hv)] at h
      obtain ⟨hc, -⟩ := lookup_medidas hu
      rw [Except.ok.injEq] at h
      rw [← h]
      positivity
  have hrom : ∀ (v : ℚ) (u : String) (r : ℚ), 0 ≤ v →
      MedRom.a_unidad_romana v u = .ok r → 0 ≤ r := by
    intro v u r hv h
    rw [MedRom.a_unidad_romana] at h
    cases hu : MedRom._medidas.lookup (pyLower u) with
    | none => simp [hu] at h
    | some c =>
      simp only [hu] at h
      rw [if_neg (not_lt.mpr hv)] at h
      obtain ⟨hc, -⟩ := lookup_medidas hu
      rw [Except.ok.injEq] at h
      rw [← h]
      positivity
  refine ⟨medidas_pos, hmod, hrom, ?_⟩
  intro v u u2 r hv h
  rw [MedRom.conversion_unidades] at h
  by_cases hcond : (MedRom._medidas.lookup (pyLower u)).isNone = true ∨
      (MedRom._medidas.lookup (pyLower u2)).isNone = true
  · rw [if_pos hcond] at h
    simp at h
  · rw [if_neg hcond] at h
    cases hm : MedRom.a_modernas v (pyLower u) with
    | error e => rw [hm] at h; simp at h
    | ok m =>
      rw [hm] at h
      have hm0 : 0 ≤ m := hmod v (pyLower u) m hv hm
      exact hrom m (pyLower u2) r hm0 h

set_option maxRecDepth 20000 in
/-- Witness for C10: the composed conversion of 2 pes to passus is
non-negative. -/
theorem C10_positive_factors_witness :
    (0 : ℚ) ≤ 2 * (296/1000) / (148/100) :=
  C10_positive_factors.2.2.2 2 "pes" "passus" (2 * (296/1000) / (148/100)) (by norm_num)
    (by with_unfolding_all decide)

/-- C8: a measurement operation fails exactly when a supplied unit (lowercased)
is absent from the table or the value is negative; the unknown-unit error
carries the list of valid unit names, and otherwise a result is returned. -/
theorem C8_measurement_errors (v : ℚ) (u u2 : String) :
    ((∃ x, MedRom.a_modernas v u = .ok x) ↔
      ((MedRom._medidas.lookup (pyLower u)).isSome ∧ 0 ≤ v)) ∧
    ((∃ x, MedRom.a_unidad_romana v u = .ok x) ↔
      ((MedRom._medidas.lookup (pyLower u)).isSome ∧ 0 ≤ v)) ∧
    ((∃ x, MedRom.conversion_unidades v u u2 = .ok x) ↔
      ((MedRom._medidas.lookup (pyLower u)).isSome ∧
        (MedRom._medidas.lookup (pyLower u2)).isSome ∧ 0 ≤ v)) ∧
    ((MedRom.a_modernas v u = .error (.unknownUnit MedRom.unidades_disponibles)) ↔
      MedRom._medidas.lookup (pyLower u) = none) ∧
    ((MedRom.a_unidad_romana v u = .error (.unknownUnit MedRom.unidades_disponibles)) ↔
      MedRom._medidas.lookup (pyLower u) = none) ∧
    ((MedRom.conversion_unidades v u u2 =
        .error (.invalidUnits MedRom.unidades_disponibles)) ↔
      (MedRom._medidas.lookup (pyLower u) = none ∨
        MedRom._medidas.lookup (pyLower u2) = none)) ∧
    ((MedRom.a_modernas v u = .error .invalidValue) ↔
      ((MedRom._medidas.lookup (pyLower u)).isSome ∧ v < 0)) := by
  cases hu : MedRom._medidas.lookup (pyLower u) with
  | none =>
    have h1 : MedRom.a_modernas v u = .error (.unknownUnit MedRom.unidades_disponibles) := by
      rw [MedRom.a_modernas]; simp only [hu]
    have h2 : MedRom.a_unidad_romana v u =
        .error (.unknownUnit MedRom.unidades_disponibles) := by
      rw [MedRom.a_unidad_romana]; simp only [hu]
    have h3 : MedRom.conversion_unidades v u u2 =
        .error (.invalidUnits MedRom.unidades_disponibles) := by
      rw [MedRom.conversion_unidades, if_pos (by simp [hu])]
    simp [h1, h2, h3, hu]
  | some c =>
    obtain ⟨hc, hl⟩ := lookup_medidas hu
    by_cases hv : v < 0
    · have h1 : MedRom.a_modernas v u = .error .invalidValue := by
        rw [MedRom.a_modernas]; simp only [hu]; rw [if_pos hv]
      have h2 : MedRom.a_unidad_romana v u = .error .invalidValue := by
        rw [MedRom.a_unidad_romana]; simp only [hu]; rw [if_pos hv]
      have h1' : MedRom.a_modernas v (pyLower u) = .error .invalidValue := by
        rw [MedRom.a_modernas]; simp only [hl, hu]; rw [if_pos hv]
      have hnv : ¬(0 : ℚ) ≤ v := not_le.mpr hv
      cases hu2 : MedRom._medidas.lookup (pyLower u2) with
      | none =>
        have h3 : MedRom.conversion_unidades v u u2 =
            .error (.invalidUnits MedRom.unidades_disponibles) := by
          rw [MedRom.conversion_unidades, if_pos (by simp [hu2])]
        simp [h1, h2, h3, hu, hu2, hv, hnv]
      | some c2 =>
        have h3 : MedRom.conversion_unidades v u u2 = .error .invalidValue := by
          rw [MedRom.conversion_unidades, if_neg (by simp [hu, hu2]), h1']
        simp [h1, h2, h3, hu, hu2, hv, hnv]
    · have hv' : (0 : ℚ) ≤ v := not_lt.mp hv
      have h1 : MedRom.a_modernas v u = .ok (v * c) := by
        rw [MedRom.a_modernas]; simp only [hu]; rw [if_neg hv]
      have h2 : MedRom.a_unidad_romana v u = .ok (v / c) := by
        rw [MedRom.a_unidad_romana]; simp only [hu]; rw [if_neg hv]
      have h1' : MedRom.a_modernas v (pyLower u) = .ok (v * c) := by
        rw [MedRom.a_modernas]; simp only [hl, hu]; rw [if_neg hv]
      cases hu2 : MedRom._medidas.lookup (pyLower u2) with
      | none =>
        have h3 : MedRom.conversion_unidades v u u2 =
            .error (.invalidUnits MedRom.unidades_disponibles) := by
          rw [MedRom.conversion_unidades, if_pos (by simp [hu2])]
        simp [h1, h2, h3, hu, hu2, hv']
      | some c2 =>
        obtain ⟨hc2, hl2⟩ := lookup_medidas hu2
        have h4 : MedRom.a_unidad_romana (v * c) (pyLower u2) = .ok (v * c / c2) := by
          rw [MedRom.a_unidad_romana]; simp only [hl2, hu2]
          rw [if_neg (not_lt.mpr (by positivity))]
        have h3 : MedRom.conversion_unidades v u u2 = .ok (v * c / c2) := by
          rw [MedRom.conversion_unidades, if_neg (by simp [hu, hu2]), h1']
          exact h4
        simp [h1, h2, h3, hu, hu2, hv']

set_option maxRecDepth 20000 in
/-- Witness for C8: an unknown unit produces the unknown-unit error carrying
the valid unit names, at v = 1, u = "cubit". -/
theorem C8_measurement_errors_witness :
    MedRom.a_modernas 1 "cubit" = .error (.unknownUnit MedRom.unidades_disponibles) :=
  (C8_measurement_errors 1 "cubit" "pes").2.2.2.1.mpr (by with_unfolding_all decide)
